import Mathlib

/-!
# WaterAPIv2: the `POST /api/save_order` handler

A shallow embedding of `src/api/customer_order.go`.  The handler that
`Customer_OrderRoutes` registers for `POST /api/save_order` binds a JSON body,
validates it, prices the order from the most recently updated
`inventory_available` row, and then, inside one transaction, inserts a
`customer_order` row and (for a `Pending` order) subtracts the ordered gallons
from that inventory row.

Modelling choices:

* the relational store is a pair of row lists (`Store`); a statement either
  fails as a whole (the failure is supplied by `Env`, the part of the world the
  handler does not control) or takes effect on the transaction's working copy;
* a transaction (`Tx`) keeps the committed rows and its working copy; `Commit`
  publishes the working copy, `Rollback` discards it;
* the `price` column is an exact decimal (a rational), so the product `price * ?`
  is exact in the store; the handler scans it into `var totalPrice float64`, which
  rounds it to the nearest binary64 value (ties to even) and fails beyond the
  `float64` range (`scanFloat64_isNearest`, `scanFloat64_eq_none_iff`); that
  `float64` is what is inserted and returned;
* quantities are integers, timestamps are natural numbers;
* `strconv.Atoi` is modelled on the UTF-8 bytes of the text, for a 64-bit `int`,
  with its fast path and its `ParseInt`/`ParseUint` slow path; it is shown to
  accept exactly the decimal texts of the integers in the `int64` range and to
  return the integer the text denotes;
* `ORDER BY last_updated DESC LIMIT 1` is a stable descending sort followed by
  taking the head, so among rows with equal `last_updated` the first one in
  table order is selected.
-/

namespace WaterAPI

/-! ## Go library: `strconv.Atoi` -/

/-- The two error causes of package `strconv`. -/
inductive NumErrKind where
  | ErrSyntax
  | ErrRange
  deriving DecidableEq, Repr

/-- Mirror of `strconv.NumError`. -/
structure NumError where
  Func : String
  Num : String
  Err : NumErrKind
  deriving DecidableEq, Repr

def syntaxError (fn str : String) : NumError := ⟨fn, str, .ErrSyntax⟩

def rangeError (fn str : String) : NumError := ⟨fn, str, .ErrRange⟩

/-- The bytes of a Go string (its UTF-8 encoding), as numbers below 256. -/
def bytes (s : String) : List Nat :=
  (s.data.flatMap String.utf8EncodeChar).map UInt8.toNat

/-- `intSize` of package `strconv` on a 64-bit platform. -/
def intSize : Nat := 64

def maxUint64 : Nat := 2 ^ 64 - 1

/-- Digit value of a byte in `ParseUint`: decimal digits, then letters (either
case, `lower(c) = c | 0x20`) counting from 10; `none` is the `default` case. -/
def digitVal (c : Nat) : Option Nat :=
  if 48 ≤ c ∧ c ≤ 57 then some (c - 48)
  else if 97 ≤ (c ||| 32) ∧ (c ||| 32) ≤ 122 then some ((c ||| 32) - 97 + 10)
  else none

/-- The loop of `strconv.ParseUint(s, 10, 64)` over the remaining bytes, with the
accumulator `n` (a `uint64`).  Returns the value and the error, as Go does. -/
def ParseUint.loop (s0 : String) (cutoff maxVal : Nat) : List Nat → Nat → Nat × Option NumError
  | [], n => (n, none)
  | c :: cs, n =>
    match digitVal c with
    | none => (0, some (syntaxError "ParseUint" s0))
    | some d =>
      if d ≥ 10 then (0, some (syntaxError "ParseUint" s0))
      else if n ≥ cutoff then (maxVal, some (rangeError "ParseUint" s0))
      else
        let n10 := (n * 10) % 2 ^ 64
        let n1 := (n10 + d) % 2 ^ 64
        if n1 < n10 ∨ n1 > maxVal then (maxVal, some (rangeError "ParseUint" s0))
        else ParseUint.loop s0 cutoff maxVal cs n1

/-- Model of `strconv.ParseUint(s, 10, 64)`; `s0` is the text for error values. -/
def ParseUint (s0 : String) (s : List Nat) : Nat × Option NumError :=
  if s = [] then (0, some (syntaxError "ParseUint" s0))
  else ParseUint.loop s0 (maxUint64 / 10 + 1) (2 ^ 64 - 1) s 0

/-- Model of `strconv.ParseInt(s, 10, 0)` with `IntSize = 64`. -/
def ParseInt (s0 : String) (s : List Nat) : Int × Option NumError :=
  match s with
  | [] => (0, some (syntaxError "ParseInt" s0))
  | c :: cs =>
    let neg : Bool := c = 45
    let rest : List Nat := if c = 43 then cs else if c = 45 then cs else c :: cs
    match ParseUint s0 rest with
    | (un, err) =>
      if err.isSome ∧ err.map NumError.Err ≠ some .ErrRange then
        (0, some (syntaxError "ParseInt" s0))
      else
        let cutoff : Nat := 2 ^ (intSize - 1)
        if ¬ neg ∧ un ≥ cutoff then ((cutoff : Int) - 1, some (rangeError "ParseInt" s0))
        else if neg ∧ un > cutoff then (-(cutoff : Int), some (rangeError "ParseInt" s0))
        else if neg then (-(un : Int), none) else ((un : Int), none)

/-- The fast-path loop of `strconv.Atoi`: `ch -= '0'` on a byte, then
`n = n*10 + int(ch)`; `none` is the syntax error. -/
def Atoi.fast : List Nat → Int → Option Int
  | [], n => some n
  | ch :: rest, n =>
    let ch0 := (ch + 256 - 48) % 256
    if ch0 > 9 then none else Atoi.fast rest (n * 10 + ch0)

/-- Model of `strconv.Atoi` for a 64-bit `int`: value and error, as Go returns. -/
def Atoi (s : String) : Int × Option NumError :=
  let b := bytes s
  let sLen := b.length
  if 0 < sLen ∧ sLen < 19 then
    match b with
    | [] => (0, some (syntaxError "Atoi" s))
    | c :: cs =>
      let signed : Bool := c = 45 ∨ c = 43
      let digits : List Nat := if signed then cs else c :: cs
      if signed ∧ digits.length < 1 then (0, some (syntaxError "Atoi" s))
      else
        match Atoi.fast digits 0 with
        | none => (0, some (syntaxError "Atoi" s))
        | some n => if c = 45 then (-n, none) else (n, none)
  else
    match ParseInt s b with
    | (i64, some nerr) => (i64, some { nerr with Func := "Atoi" })
    | (i64, none) => (i64, none)

/-! ## Go library: scanning a result column into a `float64` -/

/-- A finite `float64` (IEEE 754 binary64) value, given by the rational number it
denotes (the sign of zero is not represented); `scanFloat64` produces only such values
(`scanFloat64_isNearest`). -/
abbrev Float64 : Type := ℚ

/-- The power `2 ^ e` as a rational. -/
def pow2 (e : Int) : ℚ :=
  if 0 ≤ e then ((2 ^ e.toNat : Nat) : ℚ) else 1 / ((2 ^ (-e).toNat : Nat) : ℚ)

/-- Binary logarithm, rounded down, by halving at most `fuel` times. -/
def log2Aux : Nat → Nat → Nat
  | 0, _ => 0
  | fuel + 1, n => if n < 2 then 0 else log2Aux fuel (n / 2) + 1

/-- The exponent of the binade of `x ≠ 0`: the `e` with `2 ^ e ≤ |x| < 2 ^ (e + 1)`. -/
def floorLog2 (x : ℚ) : Int :=
  let e0 : Int := (log2Aux x.num.natAbs x.num.natAbs : Int) - (log2Aux x.den x.den : Int)
  if pow2 e0 ≤ |x| then e0 else e0 - 1

/-- Round to the nearest integer, ties to the even one. -/
def roundHalfEven (t : ℚ) : Int :=
  let f := ⌊t⌋
  if t - f < 1 / 2 then f
  else if 1 / 2 < t - f then f + 1
  else if f % 2 = 0 then f else f + 1

/-- The binary64 value nearest to `x`, ties to even, before the range check: `x` is
rounded to a multiple of the spacing `2 ^ (e - 52)` of its binade, where `e` is the
exponent of `x`, at least `-1022` (subnormal numbers share the spacing `2 ^ (-1074)`). -/
def roundFloat64 (x : ℚ) : ℚ :=
  let e := max (floorLog2 x) (-1022)
  let u := pow2 (e - 52)
  (roundHalfEven (x / u) : ℚ) * u

/-- Conversion of the exact value `x` of a result column into a `float64` destination,
as `strconv.ParseFloat(s, 64)` does for `Scan`: the nearest binary64 value, ties to
even; `none` is the range error for a value that rounds beyond the largest finite one. -/
def scanFloat64 (x : ℚ) : Option Float64 :=
  let r := roundFloat64 x
  if |r| < pow2 1024 then some r else none

/-! ## Go library: `time.Now().Format("2006-01-02")` -/

/-- The calendar date of a `time.Time`. -/
structure Time where
  Year : Nat
  Month : Nat
  Day : Nat
  deriving DecidableEq, Repr

/-- Mirror of `appendInt` of package `time`: decimal, zero-padded to `width`. -/
def appendInt (x width : Nat) : String :=
  let d := Nat.repr x
  String.mk (List.replicate (width - d.length) '0') ++ d

/-- Layout `"2006-01-02"`: four-digit year, two-digit month, two-digit day. -/
def Time.Format (t : Time) : String :=
  appendInt t.Year 4 ++ "-" ++ appendInt t.Month 2 ++ "-" ++ appendInt t.Day 2

/-! ## Data model -/

/-- Modelled from the spec: the table `customer_order`, whose definition is not
among the sources; columns as in the persisted schema
`customer_order(id, customer_id, num_gallons_order, date, date_created, total_price, status)`,
each holding the value the insert statement binds to it. -/
structure CustomerOrderRow where
  Id : Int
  customer_id : String
  num_gallons_order : Int
  date : String
  date_created : Nat
  total_price : ℚ
  status : String
  deriving DecidableEq

/-- Modelled from the spec: the table `inventory_available`, whose definition is
not among the sources; columns as in the persisted schema
`inventory_available(inventory_id, total_quantity, price, last_updated)`, the unit
price being a decimal, held exactly. -/
structure InventoryRow where
  inventory_id : Int
  total_quantity : Int
  price : ℚ
  last_updated : Nat
  deriving DecidableEq

/-- The committed contents of the two tables the handler touches. -/
structure Store where
  customer_order : List CustomerOrderRow
  inventory_available : List InventoryRow
  deriving DecidableEq

/-- The JSON body of `POST /api/save_order` after binding. -/
structure InsertCustomerOrder where
  CustomerID : String
  Num_gallons_order : String
  Date : String
  Status : String
  deriving DecidableEq, Repr

/-- What `err.Error()` reports in a response's `details`: a JSON binding error, a
`strconv` error, `sql.ErrNoRows`, a failed conversion of a column into its destination,
or an error of the store. -/
inductive Cause where
  | bind (msg : String)
  | num (e : NumError)
  | noRows
  | scan
  | store (msg : String)
  deriving DecidableEq, Repr

/-- The JSON response: an error body with its HTTP status, or the 200 body. -/
inductive Response where
  | error (status : Nat) (error : String) (details : Option Cause)
  | ok (message : String) (order_id : Int) (total_price : Float64)
      (order : InsertCustomerOrder)
  deriving DecidableEq

/-- The calls the handler makes on the store handle and on the transaction. -/
inductive DbCall where
  | Get
  | Beginx
  | ExecInsert
  | ExecUpdate
  | Commit
  | Rollback
  deriving DecidableEq, Repr

/-- The part of a run the handler does not decide: the clock, the identity the
store assigns to the inserted row, and whether each store call fails. -/
structure Env where
  today : Time
  insertNow : Nat
  updateNow : Nat
  getErr : Option String
  beginErr : Option String
  insertErr : Option String
  lastInsertId : Int
  lastIdErr : Option String
  updateErr : Option String
  commitErr : Option String

/-- Result of one request: the response, the committed store afterwards, and the
store calls made, in order. -/
structure Outcome where
  response : Response
  store : Store
  calls : List DbCall
  deriving DecidableEq

/-! ## The store -/

deriving instance DecidableEq for Except

/-- `ORDER BY last_updated DESC`. -/
def orderByLastUpdatedDesc (rows : List InventoryRow) : List InventoryRow :=
  rows.insertionSort (fun a b => a.last_updated ≥ b.last_updated)

/-- `SELECT price * ? FROM inventory_available ORDER BY last_updated DESC LIMIT 1`. -/
def getPriceQuery (db : Store) (numGallons : Int) : List ℚ :=
  ((orderByLastUpdatedDesc db.inventory_available).take 1).map (fun r => r.price * (numGallons : ℚ))

/-- `db.Get(&totalPrice, ...)` with `var totalPrice float64`: a store failure,
`sql.ErrNoRows` on an empty result, else the first row scanned into the `float64`. -/
def Get (env : Env) (rows : List ℚ) : Except Cause Float64 :=
  match env.getErr with
  | some e => .error (.store e)
  | none =>
    match rows with
    | [] => .error .noRows
    | x :: _ =>
      match scanFloat64 x with
      | none => .error .scan
      | some totalPrice => .ok totalPrice

/-- `SELECT inventory_id FROM inventory_available ORDER BY last_updated DESC LIMIT 1`
as a scalar subquery: `none` is SQL `NULL`. -/
def latestInventoryId (rows : List InventoryRow) : Option Int :=
  (((orderByLastUpdatedDesc rows).take 1).map (fun r => r.inventory_id)).head?

/-- The `UPDATE inventory_available SET total_quantity = total_quantity - ?,
last_updated = NOW() WHERE inventory_id = (...)` statement. -/
def updateInventoryQuery (now : Nat) (rows : List InventoryRow) (numGallons : Int) :
    List InventoryRow :=
  rows.map (fun r =>
    if some r.inventory_id = latestInventoryId rows then
      { r with total_quantity := r.total_quantity - numGallons, last_updated := now }
    else r)

/-- The `INSERT INTO customer_order (...) VALUES (?, ?, ?, NOW(), ?, ?)` statement. -/
def insertQuery (id : Int) (now : Nat) (rows : List CustomerOrderRow) (customerID : String)
    (numGallons : Int) (date : String) (totalPrice : Float64) (status : String) :
    List CustomerOrderRow :=
  rows ++ [⟨id, customerID, numGallons, date, now, totalPrice, status⟩]

/-- An open transaction: the committed rows, the working copy, and `done`. -/
structure Tx where
  committed : Store
  work : Store
  done : Bool
  deriving DecidableEq

/-- `db.Beginx()`. -/
def Beginx (env : Env) (db : Store) : Except Cause Tx :=
  match env.beginErr with
  | some e => .error (.store e)
  | none => .ok ⟨db, db, false⟩

/-- `tx.Commit()`: publishes the working copy unless the commit fails; either way
the transaction is finished. -/
def Tx.Commit (env : Env) (tx : Tx) : Option Cause × Tx :=
  match env.commitErr with
  | some e => (some (.store e), { tx with work := tx.committed, done := true })
  | none => (none, ⟨tx.work, tx.work, true⟩)

/-- `tx.Rollback()`: discards the working copy; nothing to do on a finished transaction. -/
def Tx.Rollback (tx : Tx) : Tx :=
  if tx.done then tx else { tx with work := tx.committed, done := true }

/-- A successful `tx.Exec(insertQuery, ...)`: the row is added to the working copy,
with the identity `env.lastInsertId` and `NOW() = env.insertNow`. -/
def Tx.ExecInsert (tx : Tx) (env : Env) (customerID : String) (numGallons : Int)
    (date : String) (totalPrice : Float64) (status : String) : Tx :=
  { committed := tx.committed
    work :=
      { customer_order :=
          insertQuery env.lastInsertId env.insertNow tx.work.customer_order customerID
            numGallons date totalPrice status
        inventory_available := tx.work.inventory_available }
    done := tx.done }

/-- A successful `tx.Exec(updateInventoryQuery, numGallons)` on the working copy,
with `NOW() = env.updateNow`. -/
def Tx.ExecUpdate (tx : Tx) (env : Env) (numGallons : Int) : Tx :=
  { committed := tx.committed
    work :=
      { customer_order := tx.work.customer_order
        inventory_available :=
          updateInventoryQuery env.updateNow tx.work.inventory_available numGallons }
    done := tx.done }

/-! ## The handler -/

namespace Customer_OrderRoutes

/-- The handler of `POST /api/save_order`.  `body` is the result of
`ctx.ShouldBindJSON`; `totalPrice` is the `float64` that `db.Get` scanned the product
into, and that `float64` is bound to the insert and returned; the deferred
`tx.Rollback()` runs on every path that leaves the handler after `Beginx` succeeded. -/
def save_order (env : Env) (db : Store) (body : Except String InsertCustomerOrder) : Outcome :=
  match body with
  | .error e => ⟨.error 400 "Invalid input" (some (.bind e)), db, []⟩
  | .ok insertCustomerOrder =>
    -- Validate customer ID
    if insertCustomerOrder.CustomerID = "" then
      ⟨.error 400 "Customer ID is required" none, db, []⟩
    else
      -- Convert num_gallons_order to int
      match Atoi insertCustomerOrder.Num_gallons_order with
      | (_, some err) => ⟨.error 400 "Invalid number of gallons" (some (.num err)), db, []⟩
      | (numGallons, none) =>
        -- Validate date
        let insertCustomerOrder :=
          if insertCustomerOrder.Date = "" then
            { insertCustomerOrder with Date := env.today.Format }
          else insertCustomerOrder
        -- Calculate total price based on inventory price: `var totalPrice float64`
        -- receives the product, so `totalPrice` below is a `Float64`
        match Get env (getPriceQuery db numGallons) with
        | .error err => ⟨.error 500 "Failed to calculate price" (some err), db, [.Get]⟩
        | .ok totalPrice =>
          -- Default status if not provided
          let insertCustomerOrder :=
            if insertCustomerOrder.Status = "" then
              { insertCustomerOrder with Status := "Pending" }
            else insertCustomerOrder
          -- Start a transaction
          match Beginx env db with
          | .error err =>
            ⟨.error 500 "Failed to start transaction" (some err), db, [.Get, .Beginx]⟩
          | .ok tx =>
            let run : Response × Tx × List DbCall :=
              -- Execute the insert query
              match env.insertErr with
              | some e => (.error 500 "Failed to save order" (some (.store e)), tx, [.ExecInsert])
              | none =>
                let tx := tx.ExecInsert env insertCustomerOrder.CustomerID numGallons
                  insertCustomerOrder.Date totalPrice insertCustomerOrder.Status
                -- Get last inserted ID
                match env.lastIdErr with
                | some e =>
                  (.error 500 "Failed to retrieve order ID" (some (.store e)), tx, [.ExecInsert])
                | none =>
                  let lastID := env.lastInsertId
                  -- If status is Pending, subtract from inventory
                  let upd : Option Cause × Tx × List DbCall :=
                    if insertCustomerOrder.Status = "Pending" then
                      match env.updateErr with
                      | some e => (some (.store e), tx, [.ExecUpdate])
                      | none =>
                        (none, tx.ExecUpdate env numGallons, [.ExecUpdate])
                    else (none, tx, [])
                  match upd with
                  | (some err, tx, calls) =>
                    (.error 500 "Failed to update inventory" (some err), tx, .ExecInsert :: calls)
                  | (none, tx, calls) =>
                    -- Commit the transaction
                    match tx.Commit env with
                    | (some err, tx) =>
                      (.error 500 "Failed to save order and update inventory" (some err), tx,
                        .ExecInsert :: calls ++ [.Commit])
                    | (none, tx) =>
                      (.ok "Order saved successfully" lastID totalPrice insertCustomerOrder, tx,
                        .ExecInsert :: calls ++ [.Commit])
            -- deferred tx.Rollback()
            ⟨run.1, run.2.1.Rollback.committed, [.Get, .Beginx] ++ run.2.2 ++ [.Rollback]⟩

end Customer_OrderRoutes

/-! ## Specification vocabulary -/

/-- An ASCII decimal digit, as a byte. -/
def isDigitByte (c : Nat) : Bool := decide (48 ≤ c) && decide (c ≤ 57)

/-- The bytes are the decimal text of an integer: an optional sign (`+` or `-`)
followed by one or more ASCII digits. -/
def isIntegerBytes : List Nat → Bool
  | [] => false
  | c :: cs =>
    if c = 43 ∨ c = 45 then !cs.isEmpty && cs.all isDigitByte
    else (c :: cs).all isDigitByte

/-- The request text is the decimal text of an integer. -/
def isIntegerText (s : String) : Bool := isIntegerBytes (bytes s)

/-- The natural number a string of ASCII digits denotes. -/
def decimalValue (ds : List Nat) : Nat := ds.foldl (fun n c => n * 10 + (c - 48)) 0

/-- The integer an optionally signed string of ASCII digits denotes. -/
def integerValue : List Nat → Int
  | [] => 0
  | c :: cs =>
    if c = 45 then -(decimalValue cs : Int)
    else if c = 43 then (decimalValue cs : Int)
    else (decimalValue (c :: cs) : Int)

/-- The integer the request text denotes. -/
def textValue (s : String) : Int := integerValue (bytes s)

/-- The text has the shape `YYYY-MM-DD`: ten characters, digits around two dashes. -/
def isYMD (s : String) : Bool :=
  match s.data with
  | [y1, y2, y3, y4, s1, m1, m2, s2, d1, d2] =>
    y1.isDigit && y2.isDigit && y3.isDigit && y4.isDigit && s1 == '-' &&
      m1.isDigit && m2.isDigit && s2 == '-' && d1.isDigit && d2.isDigit
  | _ => false

/-- The rational `y` is a finite binary64 (IEEE 754 double) value: an integer
significand below `2 ^ 53` in absolute value times a power of two with exponent
between `-1074` and `971`. -/
def IsFloat64 (y : ℚ) : Prop :=
  ∃ m e : Int, |m| < 2 ^ 53 ∧ -1074 ≤ e ∧ e ≤ 971 ∧ y = (m : ℚ) * (2 : ℚ) ^ e

/-- The value `r` is the binary64 value nearest to `x`, ties resolved to the even
significand: `r` is a binary64 value, no binary64 value is closer to `x`, and if another
one is equally close then `r` is an even multiple of the gap between the two. -/
def IsNearestFloat64 (x r : ℚ) : Prop :=
  IsFloat64 r ∧ (∀ y, IsFloat64 y → |x - r| ≤ |x - y|) ∧
    ∀ y, IsFloat64 y → y ≠ r → |x - y| = |x - r| → ∃ k : Int, r = 2 * (k : ℚ) * (r - y)

/-- The number a non-empty string of ASCII digits denotes. -/
def readDigits (cs : List Char) : Option Nat :=
  if cs ≠ [] ∧ cs.all Char.isDigit = true then
    some (cs.foldl (fun n c => n * 10 + (c.toNat - 48)) 0)
  else none

/-- The text reads `year-month-day`: three decimal numbers separated by two dashes. -/
def DenotesDate (s : String) (year month day : Nat) : Prop :=
  ∃ ys ms ds : List Char, s.data = ys ++ '-' :: (ms ++ '-' :: ds) ∧
    readDigits ys = some year ∧ readDigits ms = some month ∧ readDigits ds = some day

/-- Modelled from the spec: `inventory_id` is the key of table `inventory_available`
(the table definition is not among the sources; the data model calls it the integer
key identifying the inventory record), so no two rows share an `inventory_id`. -/
def InventoryKey (db : Store) : Prop :=
  (db.inventory_available.map (fun x => x.inventory_id)).Nodup

instance (db : Store) : Decidable (InventoryKey db) :=
  inferInstanceAs (Decidable (List.Nodup _))

/-- The row `r` is a row of `rows` with the latest `last_updated`. -/
def IsLatest (rows : List InventoryRow) (r : InventoryRow) : Prop :=
  r ∈ rows ∧ ∀ x ∈ rows, x.last_updated ≤ r.last_updated

/-- The row the order-by/limit queries select: the head of the ordered rows. -/
def latestRow (rows : List InventoryRow) : Option InventoryRow :=
  (orderByLastUpdatedDesc rows).head?

/-- The four responses the handler gives when a step inside the transaction fails. -/
def isPersistenceFailure : Response → Bool
  | .error status msg _ =>
    decide (status = 500) &&
      (msg == "Failed to save order" || msg == "Failed to retrieve order ID" ||
        msg == "Failed to update inventory" ||
        msg == "Failed to save order and update inventory")
  | .ok _ _ _ _ => false

/-- The order as echoed and stored: date and status after defaulting. -/
def defaulted (env : Env) (req : InsertCustomerOrder) : InsertCustomerOrder :=
  { CustomerID := req.CustomerID
    Num_gallons_order := req.Num_gallons_order
    Date := if req.Date = "" then env.today.Format else req.Date
    Status := if req.Status = "" then "Pending" else req.Status }

/-! ## Sample inputs -/

/-- A run in which no store call fails, on 2 November 2026. -/
def envOk : Env :=
  { today := ⟨2026, 11, 2⟩, insertNow := 100, updateNow := 101, getErr := none,
    beginErr := none, insertErr := none, lastInsertId := 1, lastIdErr := none,
    updateErr := none, commitErr := none }

/-- A run in which only the inventory update fails. -/
def envUpdateFails : Env := { envOk with updateErr := some "deadlock" }

/-- One inventory row: stock 1000 at price 2.50. -/
def dbStock1000 : Store := ⟨[], [⟨1, 1000, 5 / 2, 50⟩]⟩

/-- One inventory row: stock 10 at price 2.50. -/
def dbStock10 : Store := ⟨[], [⟨1, 10, 5 / 2, 50⟩]⟩

/-- No inventory row at all. -/
def dbNoInventory : Store := ⟨[], []⟩

/-- Customer 7 orders 40 gallons; date and status left empty. -/
def reqForty : InsertCustomerOrder := ⟨"7", "40", "", ""⟩

/-- The same order with status `Confirmed` and a date. -/
def reqConfirmed : InsertCustomerOrder := ⟨"7", "40", "2026-10-31", "Confirmed"⟩

/-- An order for minus five gallons. -/
def reqMinusFive : InsertCustomerOrder := ⟨"7", "-5", "", ""⟩

/-- One inventory row at price 1.00. -/
def dbPriceOne : Store := ⟨[], [⟨1, 1000, 1, 50⟩]⟩

/-- A `Confirmed` order for `2 ^ 53 + 1` gallons. -/
def reqTie : InsertCustomerOrder := ⟨"7", "9007199254740993", "", "Confirmed"⟩

/-- An order without customer id. -/
def reqNoCustomer : InsertCustomerOrder := ⟨"", "40", "", ""⟩

/-- An order whose quantity is not an integer text. -/
def reqFourPointFive : InsertCustomerOrder := ⟨"7", "4.5", "", ""⟩

/-! ## Facts about the store queries -/

instance lastUpdatedTotal :
    IsTotal InventoryRow (fun a b => a.last_updated ≥ b.last_updated) :=
  ⟨fun a b => Nat.le_total b.last_updated a.last_updated⟩

instance lastUpdatedTrans :
    IsTrans InventoryRow (fun a b => a.last_updated ≥ b.last_updated) :=
  ⟨fun _ _ _ hab hbc => Nat.le_trans hbc hab⟩

theorem latestRow_isLatest {rows : List InventoryRow} {r : InventoryRow}
    (h : latestRow rows = some r) : IsLatest rows r := by
  unfold latestRow orderByLastUpdatedDesc at h
  have hs := List.sorted_insertionSort (fun a b : InventoryRow => a.last_updated ≥ b.last_updated) rows
  have hp := List.perm_insertionSort (fun a b : InventoryRow => a.last_updated ≥ b.last_updated) rows
  cases hl : List.insertionSort (fun a b : InventoryRow => a.last_updated ≥ b.last_updated) rows with
  | nil => rw [hl] at h; simp at h
  | cons a l =>
    rw [hl] at h hs hp
    simp only [List.head?_cons, Option.some.injEq] at h
    subst h
    refine ⟨hp.subset (List.mem_cons_self _ _), fun x hx => ?_⟩
    have hx2 : x ∈ a :: l := hp.symm.subset hx
    rcases List.mem_cons.1 hx2 with rfl | hx3
    · exact Nat.le_refl _
    · exact List.rel_of_sorted_cons hs x hx3

theorem latestRow_eq_none {rows : List InventoryRow} :
    latestRow rows = none ↔ rows = [] := by
  unfold latestRow orderByLastUpdatedDesc
  have hp := List.perm_insertionSort (fun a b : InventoryRow => a.last_updated ≥ b.last_updated) rows
  constructor
  · intro h
    rw [List.head?_eq_none_iff] at h
    rw [h] at hp
    exact List.Perm.eq_nil hp.symm
  · rintro rfl
    rfl

theorem getPriceQuery_eq (db : Store) (n : Int) :
    getPriceQuery db n =
      match latestRow db.inventory_available with
      | none => []
      | some r => [r.price * (n : ℚ)] := by
  unfold getPriceQuery latestRow
  cases orderByLastUpdatedDesc db.inventory_available <;> simp

theorem latestInventoryId_eq (rows : List InventoryRow) :
    latestInventoryId rows = (latestRow rows).map (fun r => r.inventory_id) := by
  unfold latestInventoryId latestRow
  cases orderByLastUpdatedDesc rows <;> simp

/-! ## Facts about `strconv.Atoi` -/

theorem bytes_lt (s : String) : ∀ c ∈ bytes s, c < 256 := by
  intro c hc
  unfold bytes at hc
  rcases List.mem_map.1 hc with ⟨u, -, rfl⟩
  exact u.val.isLt

theorem Atoi.fast_digits : ∀ (l : List Nat) (n m : Int), (∀ c ∈ l, c < 256) →
    Atoi.fast l n = some m → l.all isDigitByte = true := by
  intro l
  induction l with
  | nil => intro n m _ _; rfl
  | cons c cs ih =>
    intro n m hlt h
    have hc : c < 256 := hlt c (List.mem_cons_self _ _)
    simp only [Atoi.fast] at h
    split at h
    · exact absurd h (by simp)
    · rename_i h9
      have hcs := ih _ m (fun x hx => hlt x (List.mem_cons_of_mem _ hx)) h
      have hd : isDigitByte c = true := by
        simp only [isDigitByte, Bool.and_eq_true, decide_eq_true_eq]
        omega
      simp [List.all_cons, hd, hcs]

theorem digitVal_lt_ten {c d : Nat} (h : digitVal c = some d) (hd : d < 10) :
    isDigitByte c = true := by
  unfold digitVal at h
  split at h
  · rename_i hc
    simp only [isDigitByte, Bool.and_eq_true, decide_eq_true_eq]
    exact hc
  · split at h
    · simp only [Option.some.injEq] at h
      omega
    · exact absurd h (by simp)

theorem ParseUint.loop_spec (s0 : String) (cutoff maxVal : Nat) :
    ∀ (l : List Nat) (n : Nat),
      ((ParseUint.loop s0 cutoff maxVal l n).2 = none ∧ l.all isDigitByte = true) ∨
      (∃ e, (ParseUint.loop s0 cutoff maxVal l n).2 = some e ∧ e.Err = .ErrSyntax) ∨
      (∃ e, ParseUint.loop s0 cutoff maxVal l n = (maxVal, some e) ∧ e.Err = .ErrRange) := by
  intro l
  induction l with
  | nil => intro n; left; simp [ParseUint.loop]
  | cons c cs ih =>
    intro n
    simp only [ParseUint.loop]
    cases hdv : digitVal c with
    | none => right; left; exact ⟨_, rfl, rfl⟩
    | some d =>
      simp only []
      split
      · right; left; exact ⟨_, rfl, rfl⟩
      · rename_i hd
        split
        · right; right; exact ⟨_, rfl, rfl⟩
        · split
          · right; right; exact ⟨_, rfl, rfl⟩
          · have hdig := digitVal_lt_ten hdv (by omega)
            rcases ih ((n * 10 % 2 ^ 64 + d) % 2 ^ 64) with h | h | h
            · left; exact ⟨h.1, by simp [List.all_cons, hdig, h.2]⟩
            · right; left; exact h
            · right; right; exact h

theorem ParseUint_spec (s0 : String) (l : List Nat) :
    ((ParseUint s0 l).2 = none ∧ l ≠ [] ∧ l.all isDigitByte = true) ∨
    (∃ e, (ParseUint s0 l).2 = some e ∧ e.Err = .ErrSyntax) ∨
    (∃ e, ParseUint s0 l = (2 ^ 64 - 1, some e) ∧ e.Err = .ErrRange) := by
  unfold ParseUint
  split
  · right; left; exact ⟨_, rfl, rfl⟩
  · rename_i hne
    rcases ParseUint.loop_spec s0 (maxUint64 / 10 + 1) (2 ^ 64 - 1) l 0 with h | h | h
    · left; exact ⟨h.1, hne, h.2⟩
    · right; left; exact h
    · right; right; exact h

theorem ParseInt_ok {s0 : String} {b : List Nat} {q : Int}
    (h : ParseInt s0 b = (q, none)) :
    isIntegerBytes b = true ∧ -(2 : Int) ^ 63 ≤ q ∧ q < (2 : Int) ^ 63 := by
  cases b with
  | nil => simp [ParseInt] at h
  | cons c cs =>
    simp only [ParseInt] at h
    rcases ParseUint_spec s0 (if c = 43 then cs else if c = 45 then cs else c :: cs) with
      hu | ⟨e, hu, he⟩ | ⟨e, hu, he⟩
    · obtain ⟨hnone, hne, hall⟩ := hu
      rcases hpu : ParseUint s0 (if c = 43 then cs else if c = 45 then cs else c :: cs) with ⟨un, err⟩
      rw [hpu] at h hnone
      simp only at hnone
      subst hnone
      have hint : isIntegerBytes (c :: cs) = true := by
        unfold isIntegerBytes
        by_cases h43 : c = 43
        · simp only [h43, if_true, true_or] at hall hne ⊢
          simp [hall, hne]
        · by_cases h45 : c = 45
          · simp only [h45, if_true, or_true] at hall hne ⊢
            simp only [if_neg (show ¬ (45 = 43) by decide), if_true] at hall hne
            simp [hall, hne]
          · simp only [if_neg h43, if_neg h45] at hall
            simp only [h43, h45, or_self, if_false]
            exact hall
      refine ⟨hint, ?_⟩
      simp only [intSize, Option.isSome_none, Bool.false_eq_true, false_and, if_false] at h
      by_cases hneg : c = 45
      · simp only [hneg, decide_True, not_true_eq_false, false_and, if_false, true_and,
          if_true] at h
        split at h
        · simp at h
        · rename_i hle
          simp only [Prod.mk.injEq, and_true] at h
          subst h
          norm_num at hle ⊢
          omega
      · simp only [hneg, decide_False, Bool.false_eq_true, not_false_eq_true, true_and,
          false_and, if_false] at h
        split at h
        · simp at h
        · rename_i hle
          simp only [Prod.mk.injEq, and_true] at h
          subst h
          norm_num at hle ⊢
          omega
    · rcases hpu : ParseUint s0 (if c = 43 then cs else if c = 45 then cs else c :: cs) with ⟨un, err⟩
      rw [hpu] at h hu
      simp only at hu
      subst hu
      simp [he] at h
    · rw [hu] at h
      simp only [intSize, he] at h
      by_cases hneg : c = 45 <;> simp [hneg] at h <;> simp [he] at h

theorem Atoi.fast_bound : ∀ (l : List Nat) (n m : Int), 0 ≤ n →
    Atoi.fast l n = some m →
    n * 10 ^ l.length ≤ m ∧ m < (n + 1) * 10 ^ l.length := by
  intro l
  induction l with
  | nil =>
    intro n m _ h
    simp only [Atoi.fast, Option.some.injEq] at h
    subst h
    simp
  | cons c cs ih =>
    intro n m hn h
    simp only [Atoi.fast] at h
    split at h
    · exact absurd h (by simp)
    · rename_i h9
      have hd : (((c + 256 - 48) % 256 : Nat) : Int) ≤ 9 := by omega
      have hd0 : (0 : Int) ≤ (((c + 256 - 48) % 256 : Nat) : Int) := by omega
      obtain ⟨h1, h2⟩ := ih _ m (by omega) h
      have hp : (0 : Int) < 10 ^ cs.length := by positivity
      simp only [List.length_cons, pow_succ]
      constructor
      · calc n * (10 ^ cs.length * 10) = (n * 10) * 10 ^ cs.length := by ring
          _ ≤ (n * 10 + ((c + 256 - 48) % 256 : Nat)) * 10 ^ cs.length := by
              apply mul_le_mul_of_nonneg_right _ hp.le
              omega
          _ ≤ m := h1
      · calc m < (n * 10 + ((c + 256 - 48) % 256 : Nat) + 1) * 10 ^ cs.length := h2
          _ ≤ ((n + 1) * 10) * 10 ^ cs.length := by
              apply mul_le_mul_of_nonneg_right _ hp.le
              omega
          _ = (n + 1) * (10 ^ cs.length * 10) := by ring

theorem Atoi.fast_range {l : List Nat} {m : Int} (hlen : l.length < 19)
    (h : Atoi.fast l 0 = some m) : 0 ≤ m ∧ m < (2 : Int) ^ 63 := by
  obtain ⟨h1, h2⟩ := Atoi.fast_bound l 0 m (le_refl _) h
  have hp : (10 : Int) ^ l.length ≤ 10 ^ 18 :=
    pow_le_pow_right₀ (by norm_num) (by omega)
  constructor
  · simpa using h1
  · have : m < 10 ^ 18 := by
      have := h2
      simp only [zero_add, one_mul] at this
      exact lt_of_lt_of_le this hp
    exact lt_trans this (by norm_num)

theorem Atoi_ok {s : String} {q : Int} (h : Atoi s = (q, none)) :
    isIntegerText s = true ∧ -(2 : Int) ^ 63 ≤ q ∧ q < (2 : Int) ^ 63 := by
  unfold Atoi at h
  unfold isIntegerText
  have hlt := bytes_lt s
  generalize bytes s = b at h hlt
  simp only at h
  split at h
  · rename_i hlen
    cases b with
    | nil => simp at h
    | cons c cs =>
      simp only [List.length_cons] at hlen
      by_cases hs : c = 45 ∨ c = 43
      · have hs2 : c = 43 ∨ c = 45 := hs.symm
        simp only [hs, decide_True, if_true, true_and] at h
        split at h
        · simp at h
        · rename_i hne
          cases hf : Atoi.fast cs 0 with
          | none => rw [hf] at h; simp at h
          | some n =>
            rw [hf] at h
            simp only at h
            have hdig := Atoi.fast_digits cs 0 n
              (fun x hx => hlt x (List.mem_cons_of_mem _ hx)) hf
            have hr := Atoi.fast_range (by omega) hf
            have hcs : cs ≠ [] := by
              intro hnil
              apply hne
              simp [hnil]
            refine ⟨by simp [isIntegerBytes, hs2, hdig, hcs], ?_⟩
            split at h <;> simp only [Prod.mk.injEq, and_true] at h <;> subst h <;>
              constructor <;> norm_num <;> omega
      · have hs2 : ¬ (c = 43 ∨ c = 45) := fun hh => hs hh.symm
        simp only [hs, decide_False, Bool.false_eq_true, if_false, false_and] at h
        cases hf : Atoi.fast (c :: cs) 0 with
        | none => rw [hf] at h; simp at h
        | some n =>
          rw [hf] at h
          simp only at h
          have hdig := Atoi.fast_digits (c :: cs) 0 n hlt hf
          have hr := Atoi.fast_range (by simp only [List.length_cons]; omega) hf
          refine ⟨by simp only [isIntegerBytes, hs2, if_false]; exact hdig, ?_⟩
          split at h <;> simp only [Prod.mk.injEq, and_true] at h <;> subst h <;>
            constructor <;> norm_num <;> omega
  · cases hp : ParseInt s b with
    | mk i64 err =>
      rw [hp] at h
      cases err with
      | some e => simp at h
      | none =>
        simp only [Prod.mk.injEq, and_true] at h
        subst h
        exact ParseInt_ok hp

theorem Atoi.fast_value : ∀ (l : List Nat) (n : Nat) (m : Int), (∀ c ∈ l, c < 256) →
    Atoi.fast l (n : Int) = some m →
    m = ((l.foldl (fun n c => n * 10 + (c - 48)) n : Nat) : Int) := by
  intro l
  induction l with
  | nil =>
    intro n m _ h
    simp only [Atoi.fast, Option.some.injEq] at h
    simp [h]
  | cons c cs ih =>
    intro n m hlt h
    have hc : c < 256 := hlt c (List.mem_cons_self _ _)
    simp only [Atoi.fast] at h
    split at h
    · exact absurd h (by simp)
    · rename_i h9
      have hch : (c + 256 - 48) % 256 = c - 48 := by omega
      rw [hch] at h
      have hcast : (n : Int) * 10 + ((c - 48 : Nat) : Int) = ((n * 10 + (c - 48) : Nat) : Int) := by
        push_cast
        rfl
      rw [hcast] at h
      simpa using ih _ m (fun x hx => hlt x (List.mem_cons_of_mem _ hx)) h

theorem ParseUint.loop_value (s0 : String) :
    ∀ (l : List Nat) (n v : Nat), n < 2 ^ 64 →
      ParseUint.loop s0 (maxUint64 / 10 + 1) (2 ^ 64 - 1) l n = (v, none) →
      v = l.foldl (fun n c => n * 10 + (c - 48)) n ∧ v < 2 ^ 64 := by
  intro l
  induction l with
  | nil =>
    intro n v hn h
    simp only [ParseUint.loop, Prod.mk.injEq, and_true] at h
    subst h
    exact ⟨rfl, hn⟩
  | cons c cs ih =>
    intro n v hn h
    simp only [ParseUint.loop] at h
    cases hdv : digitVal c with
    | none => rw [hdv] at h; simp at h
    | some d =>
      rw [hdv] at h
      simp only at h
      split at h
      · simp at h
      · rename_i hd
        split at h
        · simp at h
        · rename_i hcut
          split at h
          · simp at h
          · rename_i hov
            have hdc : d = c - 48 := by
              unfold digitVal at hdv
              split at hdv
              · simp only [Option.some.injEq] at hdv
                omega
              · split at hdv
                · simp only [Option.some.injEq] at hdv
                  omega
                · exact absurd hdv (by simp)
            have hn10 : n * 10 < 2 ^ 64 := by
              simp only [maxUint64] at hcut
              omega
            have h1 : n * 10 % 2 ^ 64 = n * 10 := Nat.mod_eq_of_lt hn10
            rw [h1] at h hov
            have h2 : (n * 10 + d) % 2 ^ 64 = n * 10 + d := by omega
            rw [h2] at h hov
            have hlt2 : n * 10 + d < 2 ^ 64 := by omega
            obtain ⟨hv, hv2⟩ := ih _ v hlt2 h
            refine ⟨?_, hv2⟩
            rw [hv, hdc]
            rfl

theorem ParseUint_value {s0 : String} {l : List Nat} {un : Nat}
    (h : ParseUint s0 l = (un, none)) : un = decimalValue l := by
  unfold ParseUint at h
  split at h
  · simp at h
  · exact (ParseUint.loop_value s0 l 0 un (by norm_num) h).1

theorem ParseInt_value {s0 : String} {b : List Nat} {q : Int}
    (h : ParseInt s0 b = (q, none)) : q = integerValue b := by
  cases b with
  | nil => simp [ParseInt] at h
  | cons c cs =>
    simp only [ParseInt] at h
    unfold integerValue
    have hrest : (if c = 43 then cs else if c = 45 then cs else c :: cs) =
        (if c = 45 then cs else if c = 43 then cs else c :: cs) := by
      by_cases h43 : c = 43 <;> by_cases h45 : c = 45 <;> simp [h43, h45]
    generalize (if c = 43 then cs else if c = 45 then cs else c :: cs) = rest at h hrest
    rcases ParseUint_spec s0 rest with hu | ⟨e, hu, he⟩ | ⟨e, hu, he⟩
    · rcases hpu : ParseUint s0 rest with ⟨un, err⟩
      rw [hpu] at h hu
      obtain ⟨hnone, -, -⟩ := hu
      simp only at hnone
      subst hnone
      have hval := ParseUint_value hpu
      simp only [intSize, Option.isSome_none, Bool.false_eq_true, false_and, if_false] at h
      by_cases hneg : c = 45
      · simp only [hneg, decide_True, not_true_eq_false, false_and, if_false, true_and,
          if_true] at h hrest ⊢
        split at h
        · simp at h
        · simp only [Prod.mk.injEq, and_true] at h
          rw [← h, hval, hrest]
      · simp only [hneg, decide_False, Bool.false_eq_true, not_false_eq_true, true_and,
          false_and, if_false] at h hrest ⊢
        split at h
        · simp at h
        · simp only [Prod.mk.injEq, and_true] at h
          rw [← h, hval, hrest]
          by_cases h43 : c = 43 <;> simp [h43]
    · rcases hpu : ParseUint s0 rest with ⟨un, err⟩
      rw [hpu] at h hu
      simp only at hu
      subst hu
      simp [he] at h
    · rw [hu] at h
      simp only [intSize, he] at h
      by_cases hneg : c = 45 <;> simp [hneg] at h <;> simp [he] at h

theorem Atoi_value {s : String} {q : Int} (h : Atoi s = (q, none)) : q = textValue s := by
  unfold Atoi at h
  unfold textValue
  have hlt := bytes_lt s
  generalize bytes s = b at h hlt
  simp only at h
  split at h
  · cases b with
    | nil => simp at h
    | cons c cs =>
      by_cases hs : c = 45 ∨ c = 43
      · simp only [hs, decide_True, if_true, true_and] at h
        split at h
        · simp at h
        · cases hf : Atoi.fast cs 0 with
          | none => rw [hf] at h; simp at h
          | some n =>
            rw [hf] at h
            simp only at h
            have hv := Atoi.fast_value cs 0 n
              (fun x hx => hlt x (List.mem_cons_of_mem _ hx)) (by simpa using hf)
            unfold integerValue
            by_cases h45 : c = 45
            · simp only [h45, if_true, Prod.mk.injEq, and_true] at h ⊢
              rw [← h, hv]
              rfl
            · have h43 : c = 43 := by
                rcases hs with h1 | h1
                · exact absurd h1 h45
                · exact h1
              simp only [h45, h43, if_true, if_false, Prod.mk.injEq, and_true] at h ⊢
              simp only [if_neg (show ¬ ((43 : Nat) = 45) by decide), Prod.mk.injEq,
                and_true] at h
              rw [← h, hv]
              rfl
      · simp only [hs, decide_False, Bool.false_eq_true, if_false, false_and] at h
        cases hf : Atoi.fast (c :: cs) 0 with
        | none => rw [hf] at h; simp at h
        | some n =>
          rw [hf] at h
          simp only at h
          have hv := Atoi.fast_value (c :: cs) 0 n hlt (by simpa using hf)
          have h45 : ¬ c = 45 := fun hh => hs (Or.inl hh)
          have h43 : ¬ c = 43 := fun hh => hs (Or.inr hh)
          unfold integerValue
          simp only [h45, h43, if_false, Prod.mk.injEq, and_true] at h ⊢
          rw [← h, hv]
          rfl
  · cases hp : ParseInt s b with
    | mk i64 err =>
      rw [hp] at h
      cases err with
      | some e => simp at h
      | none =>
        simp only [Prod.mk.injEq, and_true] at h
        subst h
        exact ParseInt_value hp

theorem isDigitByte_iff {c : Nat} : isDigitByte c = true ↔ 48 ≤ c ∧ c ≤ 57 := by
  simp [isDigitByte]

theorem foldl_digits_ge : ∀ (l : List Nat) (n : Nat),
    n ≤ l.foldl (fun n c => n * 10 + (c - 48)) n := by
  intro l
  induction l with
  | nil => intro n; exact Nat.le_refl _
  | cons c cs ih =>
    intro n
    simp only [List.foldl_cons]
    exact Nat.le_trans (by omega) (ih _)

theorem Atoi.fast_complete : ∀ (l : List Nat) (n : Nat), l.all isDigitByte = true →
    Atoi.fast l (n : Int) = some ((l.foldl (fun n c => n * 10 + (c - 48)) n : Nat) : Int) := by
  intro l
  induction l with
  | nil => intro n _; rfl
  | cons c cs ih =>
    intro n hall
    simp only [List.all_cons, Bool.and_eq_true] at hall
    have hc := isDigitByte_iff.1 hall.1
    simp only [Atoi.fast, List.foldl_cons]
    have hch : (c + 256 - 48) % 256 = c - 48 := by omega
    rw [hch, if_neg (by omega)]
    have hcast : (n : Int) * 10 + ((c - 48 : Nat) : Int) = ((n * 10 + (c - 48) : Nat) : Int) := by
      push_cast
      rfl
    rw [hcast]
    exact ih _ hall.2

theorem ParseUint.loop_complete (s0 : String) : ∀ (l : List Nat) (n : Nat),
    l.all isDigitByte = true → l.foldl (fun n c => n * 10 + (c - 48)) n < 2 ^ 64 →
    ParseUint.loop s0 (maxUint64 / 10 + 1) (2 ^ 64 - 1) l n =
      (l.foldl (fun n c => n * 10 + (c - 48)) n, none) := by
  intro l
  induction l with
  | nil => intro n _ _; rfl
  | cons c cs ih =>
    intro n hall hlt
    simp only [List.all_cons, Bool.and_eq_true] at hall
    have hc := isDigitByte_iff.1 hall.1
    simp only [List.foldl_cons] at hlt ⊢
    have hge := foldl_digits_ge cs (n * 10 + (c - 48))
    have hdv : digitVal c = some (c - 48) := by
      unfold digitVal
      rw [if_pos hc]
    simp only [ParseUint.loop, hdv]
    have h1 : n * 10 % 2 ^ 64 = n * 10 := Nat.mod_eq_of_lt (by omega)
    have h2 : (n * 10 + (c - 48)) % 2 ^ 64 = n * 10 + (c - 48) := Nat.mod_eq_of_lt (by omega)
    rw [if_neg (by omega), if_neg (by simp only [maxUint64]; omega), h1, h2,
      if_neg (by omega)]
    exact ih _ hall.2 hlt

theorem Atoi.fast_decimalValue {l : List Nat} (h : l.all isDigitByte = true) :
    Atoi.fast l 0 = some (decimalValue l : Int) := by
  have := Atoi.fast_complete l 0 h
  simpa [decimalValue] using this

theorem ParseUint_complete (s0 : String) {l : List Nat} (hne : l ≠ [])
    (h : l.all isDigitByte = true) (hlt : decimalValue l < 2 ^ 64) :
    ParseUint s0 l = (decimalValue l, none) := by
  unfold ParseUint
  rw [if_neg hne]
  exact ParseUint.loop_complete s0 l 0 h hlt

theorem Atoi_complete {s : String} (hint : isIntegerText s = true)
    (hlo : -(2 : Int) ^ 63 ≤ textValue s) (hhi : textValue s < (2 : Int) ^ 63) :
    Atoi s = (textValue s, none) := by
  unfold Atoi
  unfold isIntegerText at hint
  unfold textValue at hlo hhi ⊢
  generalize bytes s = b at hint hlo hhi
  cases b with
  | nil => simp [isIntegerBytes] at hint
  | cons c cs =>
    simp only [isIntegerBytes] at hint
    simp only [integerValue] at hlo hhi ⊢
    by_cases hs : c = 43 ∨ c = 45
    · have hs2 : c = 45 ∨ c = 43 := hs.symm
      simp only [hs, if_true, Bool.and_eq_true, Bool.not_eq_true',
        List.isEmpty_eq_false_iff_exists_mem] at hint
      obtain ⟨⟨x, hx⟩, hall⟩ := hint
      have hne : cs ≠ [] := List.ne_nil_of_mem hx
      have hlen : ¬ cs.length < 1 := by
        cases cs with
        | nil => exact absurd rfl hne
        | cons _ _ => simp
      have hfast := Atoi.fast_decimalValue hall
      have hrest : (if c = 43 then cs else if c = 45 then cs else c :: cs) = cs := by
        rcases hs with h | h <;> simp [h]
      have hpu := fun h => ParseUint_complete s hne hall h
      generalize decimalValue cs = v at hlo hhi hfast hpu
      split
      · simp only [hs2, decide_True, if_true, true_and, if_neg hlen, hfast]
        by_cases h45 : c = 45
        · simp [h45]
        · have h43 : c = 43 := by
            rcases hs with h | h
            · exact h
            · exact absurd h h45
          simp [h43]
      · simp only [ParseInt, intSize, hrest]
        by_cases h45 : c = 45
        · simp only [h45, if_true] at hlo hhi ⊢
          have hv : v ≤ 2 ^ 63 := by
            have h2 : (v : Int) ≤ 2 ^ 63 := by linarith
            exact_mod_cast h2
          rw [hpu (by omega)]
          simp only [Option.isSome_none, Bool.false_eq_true, false_and, if_false, decide_True,
            not_true_eq_false, true_and]
          rw [if_neg (by norm_num; omega)]
          simp
        · have h43 : c = 43 := by
            rcases hs with h | h
            · exact h
            · exact absurd h h45
          simp only [h43, if_neg (show ¬ ((43 : Nat) = 45) by decide), if_true] at hlo hhi ⊢
          have hv : v < 2 ^ 63 := by exact_mod_cast hhi
          rw [hpu (by omega)]
          simp only [Option.isSome_none, Bool.false_eq_true, false_and, if_false, decide_False,
            not_false_eq_true, true_and]
          rw [if_neg (by norm_num; omega)]
          simp
    · have h43 : ¬ c = 43 := fun h => hs (Or.inl h)
      have h45 : ¬ c = 45 := fun h => hs (Or.inr h)
      have hs2 : ¬ (c = 45 ∨ c = 43) := fun h => hs h.symm
      simp only [hs, if_false] at hint
      simp only [h43, h45, if_false] at hlo hhi ⊢
      have hfast := Atoi.fast_decimalValue hint
      have hpu := fun h => ParseUint_complete s (List.cons_ne_nil c cs) hint h
      generalize decimalValue (c :: cs) = v at hlo hhi hfast hpu
      have hv : v < 2 ^ 63 := by exact_mod_cast hhi
      split
      · simp [h43, h45, hfast]
      · simp only [ParseInt, intSize, h43, h45, if_false]
        rw [hpu (by omega)]
        have hcut : ¬ 9223372036854775808 ≤ v := by omega
        simp [h45, hcut]

/-! ## Facts about the `float64` conversion -/

theorem log2Aux_spec : ∀ (fuel n : Nat), n ≠ 0 → n ≤ fuel →
    2 ^ log2Aux fuel n ≤ n ∧ n < 2 ^ (log2Aux fuel n + 1) := by
  intro fuel
  induction fuel with
  | zero => intro n h0 hle; omega
  | succ fuel ih =>
    intro n h0 hle
    simp only [log2Aux]
    split
    · rename_i hlt
      simp only [pow_zero, zero_add, pow_one]
      omega
    · rename_i hge
      have hdiv : n / 2 ≠ 0 := by omega
      have hle2 : n / 2 ≤ fuel := by omega
      obtain ⟨h1, h2⟩ := ih (n / 2) hdiv hle2
      constructor
      · rw [pow_succ]
        omega
      · rw [pow_succ]
        omega

theorem pow2_eq (e : Int) : pow2 e = (2 : ℚ) ^ e := by
  unfold pow2
  split
  · rename_i h
    obtain ⟨k, rfl⟩ := Int.eq_ofNat_of_zero_le h
    simp
  · rename_i h
    obtain ⟨k, hk⟩ := Int.eq_ofNat_of_zero_le (show 0 ≤ -e by omega)
    have he : e = -(k : Int) := by omega
    subst he
    simp

theorem pow2_pos (e : Int) : 0 < pow2 e := by
  rw [pow2_eq]
  exact zpow_pos (by norm_num) e

theorem abs_eq_natAbs_div_den (x : ℚ) : |x| = (x.num.natAbs : ℚ) / (x.den : ℚ) := by
  have hd : (0 : ℚ) < (x.den : ℚ) := by exact_mod_cast x.den_pos
  conv_lhs => rw [← Rat.num_div_den x]
  rw [abs_div, abs_of_pos hd]
  congr 1
  rw [Nat.cast_natAbs, Int.cast_abs]

theorem floorLog2_spec {x : ℚ} (hx : x ≠ 0) :
    (2 : ℚ) ^ floorLog2 x ≤ |x| ∧ |x| < (2 : ℚ) ^ (floorLog2 x + 1) := by
  have hn0 : x.num.natAbs ≠ 0 := by
    simpa [Int.natAbs_eq_zero] using hx
  have hd0 : x.den ≠ 0 := x.den_nz
  obtain ⟨hn1, hn2⟩ := log2Aux_spec _ _ hn0 (le_refl _)
  obtain ⟨hd1, hd2⟩ := log2Aux_spec _ _ hd0 (le_refl _)
  have habs := abs_eq_natAbs_div_den x
  have hdpos : (0 : ℚ) < (x.den : ℚ) := by exact_mod_cast x.den_pos
  unfold floorLog2
  simp only
  generalize log2Aux x.num.natAbs x.num.natAbs = a at hn1 hn2 ⊢
  generalize log2Aux x.den x.den = b at hd1 hd2 ⊢
  generalize x.num.natAbs = n at hn0 hn1 hn2 habs
  have hn1q : (2 : ℚ) ^ (a : Int) ≤ (n : ℚ) := by
    rw [zpow_natCast]; exact_mod_cast hn1
  have hn2q : (n : ℚ) < (2 : ℚ) ^ ((a : Int) + 1) := by
    have : (n : ℚ) < (2 : ℚ) ^ (a + 1) := by exact_mod_cast hn2
    rwa [← zpow_natCast, Nat.cast_add, Nat.cast_one] at this
  have hd1q : (2 : ℚ) ^ (b : Int) ≤ (x.den : ℚ) := by
    rw [zpow_natCast]; exact_mod_cast hd1
  have hd2q : (x.den : ℚ) < (2 : ℚ) ^ ((b : Int) + 1) := by
    have : (x.den : ℚ) < (2 : ℚ) ^ (b + 1) := by exact_mod_cast hd2
    rwa [← zpow_natCast, Nat.cast_add, Nat.cast_one] at this
  have h2 : (2 : ℚ) ≠ 0 := by norm_num
  split
  · rename_i hle
    rw [pow2_eq] at hle
    refine ⟨hle, ?_⟩
    rw [habs, div_lt_iff₀ hdpos]
    calc (n : ℚ) < (2 : ℚ) ^ ((a : Int) + 1) := hn2q
      _ = (2 : ℚ) ^ ((a : Int) - b + 1) * (2 : ℚ) ^ (b : Int) := by
          rw [← zpow_add₀ h2]; congr 1; ring
      _ ≤ (2 : ℚ) ^ ((a : Int) - b + 1) * (x.den : ℚ) :=
          mul_le_mul_of_nonneg_left hd1q (zpow_pos (by norm_num) _).le
  · rename_i hlt
    rw [pow2_eq, not_le] at hlt
    refine ⟨?_, by simpa using hlt⟩
    rw [habs, le_div_iff₀ hdpos]
    calc (2 : ℚ) ^ ((a : Int) - b - 1) * (x.den : ℚ)
        ≤ (2 : ℚ) ^ ((a : Int) - b - 1) * (2 : ℚ) ^ ((b : Int) + 1) :=
          mul_le_mul_of_nonneg_left hd2q.le (zpow_pos (by norm_num) _).le
      _ = (2 : ℚ) ^ (a : Int) := by
          rw [← zpow_add₀ h2]; congr 1; ring
      _ ≤ (n : ℚ) := hn1q


theorem roundHalfEven_spec (t : ℚ) :
    |t - (roundHalfEven t : ℚ)| ≤ 1 / 2 ∧
    (|t - (roundHalfEven t : ℚ)| = 1 / 2 → roundHalfEven t % 2 = 0) := by
  have h1 : ((⌊t⌋ : Int) : ℚ) ≤ t := Int.floor_le t
  have h2 : t < ((⌊t⌋ : Int) : ℚ) + 1 := Int.lt_floor_add_one t
  unfold roundHalfEven
  simp only
  split
  · rename_i h
    have habs : |t - ((⌊t⌋ : Int) : ℚ)| = t - ((⌊t⌋ : Int) : ℚ) := abs_of_nonneg (by linarith)
    rw [habs]
    exact ⟨by linarith, fun he => absurd he (by linarith)⟩
  · rename_i h
    split
    · rename_i h3
      have habs : |t - (((⌊t⌋ + 1 : Int)) : ℚ)| = ((⌊t⌋ : Int) : ℚ) + 1 - t := by
        push_cast
        rw [abs_of_nonpos (by linarith)]
        ring
      rw [habs]
      exact ⟨by linarith, fun he => absurd he (by linarith)⟩
    · rename_i h3
      have hhalf : t - ((⌊t⌋ : Int) : ℚ) = 1 / 2 := by linarith
      split
      · rename_i hev
        have habs : |t - ((⌊t⌋ : Int) : ℚ)| = 1 / 2 := by
          rw [hhalf]; norm_num
        rw [habs]
        exact ⟨le_refl _, fun _ => hev⟩
      · rename_i hodd
        have habs : |t - (((⌊t⌋ + 1 : Int)) : ℚ)| = 1 / 2 := by
          push_cast
          have : t - (((⌊t⌋ : Int) : ℚ) + 1) = -(1 / 2) := by linarith
          rw [this]; norm_num
        rw [habs]
        exact ⟨le_refl _, fun _ => by omega⟩

theorem roundHalfEven_nearest (t : ℚ) (n : Int) :
    |t - (roundHalfEven t : ℚ)| ≤ |t - (n : ℚ)| := by
  by_contra hlt
  rw [not_le] at hlt
  have h1 := (roundHalfEven_spec t).1
  have hdist : |((roundHalfEven t - n : Int) : ℚ)| < 1 := by
    have htri : |((roundHalfEven t - n : Int) : ℚ)| ≤
        |t - (n : ℚ)| + |t - (roundHalfEven t : ℚ)| := by
      have : ((roundHalfEven t - n : Int) : ℚ) = (t - (n : ℚ)) - (t - (roundHalfEven t : ℚ)) := by
        push_cast; ring
      rw [this]
      exact abs_sub _ _
    linarith
  have hz : roundHalfEven t - n = 0 := by
    have : |roundHalfEven t - n| < 1 := by
      have h := hdist
      rw [← Int.cast_abs] at h
      exact_mod_cast h
    exact Int.abs_lt_one_iff.1 this
  have heq : roundHalfEven t = n := by omega
  rw [heq] at hlt
  exact lt_irrefl _ hlt

theorem roundHalfEven_intCast (n : Int) : roundHalfEven (n : ℚ) = n := by
  have h := roundHalfEven_nearest (n : ℚ) n
  simp only [sub_self, abs_zero] at h
  have h0 : (n : ℚ) - (roundHalfEven (n : ℚ) : ℚ) = 0 := abs_eq_zero.1 (le_antisymm h (abs_nonneg _))
  have : (roundHalfEven (n : ℚ) : ℚ) = (n : ℚ) := by linarith
  exact_mod_cast this

theorem roundFloat64_zero : roundFloat64 0 = 0 := by
  unfold roundFloat64
  simp only [zero_div]
  have : roundHalfEven 0 = 0 := by
    have := roundHalfEven_intCast 0
    simpa using this
  rw [this]
  simp

theorem roundFloat64_setup {x : ℚ} (hx : x ≠ 0) :
    ∃ e : Int, -1022 ≤ e ∧
      roundFloat64 x = (roundHalfEven (x / (2 : ℚ) ^ (e - 52)) : ℚ) * (2 : ℚ) ^ (e - 52) ∧
      |x| < (2 : ℚ) ^ (e + 1) ∧ (e = -1022 ∨ (2 : ℚ) ^ e ≤ |x|) := by
  obtain ⟨h1, h2⟩ := floorLog2_spec hx
  refine ⟨max (floorLog2 x) (-1022), le_max_right _ _, ?_, ?_, ?_⟩
  · unfold roundFloat64
    simp only [pow2_eq]
  · refine lt_of_lt_of_le h2 (zpow_le_zpow_right₀ (by norm_num) ?_)
    have := le_max_left (floorLog2 x) (-1022)
    omega
  · by_cases hc : floorLog2 x ≤ -1022
    · left
      exact max_eq_right hc
    · right
      rw [max_eq_left (by omega)]
      exact h1

theorem grid_nearest (x u : ℚ) (hu : 0 < u) (n : Int) :
    |x - (roundHalfEven (x / u) : ℚ) * u| ≤ |x - (n : ℚ) * u| := by
  have h := roundHalfEven_nearest (x / u) n
  have hu0 : u ≠ 0 := ne_of_gt hu
  have e1 : x - (roundHalfEven (x / u) : ℚ) * u = (x / u - (roundHalfEven (x / u) : ℚ)) * u := by
    rw [sub_mul, div_mul_cancel₀ x hu0]
  have e2 : x - (n : ℚ) * u = (x / u - (n : ℚ)) * u := by
    rw [sub_mul, div_mul_cancel₀ x hu0]
  rw [e1, e2, abs_mul, abs_mul, abs_of_pos hu]
  exact mul_le_mul_of_nonneg_right h hu.le

theorem float64_on_grid {y : ℚ} (hy : IsFloat64 y) {e : Int}
    (he : e = -1022 ∨ (2 : ℚ) ^ e ≤ |y|) :
    ∃ n : Int, y = (n : ℚ) * (2 : ℚ) ^ (e - 52) := by
  obtain ⟨m, k, hm, hk1, hk2, rfl⟩ := hy
  have h2 : (2 : ℚ) ≠ 0 := by norm_num
  have hk : e - 52 ≤ k := by
    rcases he with he | he
    · omega
    · by_contra hcon
      rw [not_le] at hcon
      have hmq : |(m : ℚ)| < (2 : ℚ) ^ (53 : Int) := by
        rw [← Int.cast_abs]
        have : ((|m| : Int) : ℚ) < ((2 ^ 53 : Int) : ℚ) := by exact_mod_cast hm
        have h53 : ((2 ^ 53 : Int) : ℚ) = (2 : ℚ) ^ (53 : Int) := by norm_num
        rwa [h53] at this
      have hpk : (0 : ℚ) < (2 : ℚ) ^ k := zpow_pos (by norm_num) k
      have hlt : |(m : ℚ) * (2 : ℚ) ^ k| < (2 : ℚ) ^ e := by
        rw [abs_mul, abs_of_pos hpk]
        calc |(m : ℚ)| * (2 : ℚ) ^ k < (2 : ℚ) ^ (53 : Int) * (2 : ℚ) ^ k :=
              mul_lt_mul_of_pos_right hmq hpk
          _ = (2 : ℚ) ^ (53 + k) := by rw [← zpow_add₀ h2]
          _ ≤ (2 : ℚ) ^ e := zpow_le_zpow_right₀ (by norm_num) (by omega)
      exact absurd he (not_le.2 hlt)
  obtain ⟨j, hj⟩ := Int.eq_ofNat_of_zero_le (show 0 ≤ k - (e - 52) by omega)
  refine ⟨m * 2 ^ j, ?_⟩
  have hkk : k = (j : Int) + (e - 52) := by omega
  rw [hkk, zpow_add₀ h2, zpow_natCast]
  push_cast
  ring

theorem roundFloat64_nearest_aux {x : ℚ} (hx : x ≠ 0) {e : Int}
    (hcase : e = -1022 ∨ (2 : ℚ) ^ e ≤ |x|) {y : ℚ} (hy : IsFloat64 y) :
    (∃ n : Int, y = (n : ℚ) * (2 : ℚ) ^ (e - 52)) ∨
    (∃ n : Int, |x - (n : ℚ) * (2 : ℚ) ^ (e - 52)| < |x - y|) := by
  by_cases hyg : e = -1022 ∨ (2 : ℚ) ^ e ≤ |y|
  · left
    exact float64_on_grid hy hyg
  · right
    rw [not_or, not_le] at hyg
    have hxe : (2 : ℚ) ^ e ≤ |x| := by
      rcases hcase with h | h
      · exact absurd h hyg.1
      · exact h
    have h2 : (2 : ℚ) ≠ 0 := by norm_num
    have hpe : (2 : ℚ) ^ e = ((2 ^ 52 : Int) : ℚ) * (2 : ℚ) ^ (e - 52) := by
      have : e = 52 + (e - 52) := by ring
      conv_lhs => rw [this, zpow_add₀ h2]
      norm_num
    have hrev : |x| - |y| ≤ |x - y| := abs_sub_abs_le_abs_sub x y
    rcases lt_or_gt_of_ne hx with hneg | hpos
    · refine ⟨-(2 ^ 52), ?_⟩
      have hval : ((-(2 ^ 52) : Int) : ℚ) * (2 : ℚ) ^ (e - 52) = -(2 : ℚ) ^ e := by
        rw [hpe]; push_cast; ring
      rw [hval]
      have hxa : |x| = -x := abs_of_neg hneg
      have : |x - -(2 : ℚ) ^ e| = |x| - (2 : ℚ) ^ e := by
        rw [hxa, abs_of_nonpos (by rw [hxa] at hxe; linarith)]
        ring
      rw [this]
      linarith [hyg.2]
    · refine ⟨2 ^ 52, ?_⟩
      rw [← hpe]
      have hxa : |x| = x := abs_of_pos hpos
      have : |x - (2 : ℚ) ^ e| = |x| - (2 : ℚ) ^ e := by
        rw [hxa, abs_of_nonneg (by rw [hxa] at hxe; linarith)]
      rw [this]
      linarith [hyg.2]

/-- The result of rounding is at least as close to `x` as any binary64 value. -/
theorem roundFloat64_nearest (x : ℚ) {y : ℚ} (hy : IsFloat64 y) :
    |x - roundFloat64 x| ≤ |x - y| := by
  by_cases hx : x = 0
  · subst hx
    rw [roundFloat64_zero]
    simp
  obtain ⟨e, -, hr, -, hcase⟩ := roundFloat64_setup hx
  rw [hr]
  have hu : (0 : ℚ) < (2 : ℚ) ^ (e - 52) := zpow_pos (by norm_num) _
  rcases roundFloat64_nearest_aux hx hcase hy with ⟨n, rfl⟩ | ⟨n, hn⟩
  · exact grid_nearest x _ hu n
  · exact le_trans (grid_nearest x _ hu n) hn.le

/-- A binary64 value is not changed by rounding. -/
theorem roundFloat64_exact {x : ℚ} (hx : IsFloat64 x) : roundFloat64 x = x := by
  have h := roundFloat64_nearest x hx
  simp only [sub_self, abs_zero] at h
  have h0 : x - roundFloat64 x = 0 := abs_eq_zero.1 (le_antisymm h (abs_nonneg _))
  linarith

theorem int_abs_le_of_cast_lt {m : Int} {B : Int} (h : |(m : ℚ)| < (B : ℚ) + 1) : |m| ≤ B := by
  have h1 : ((|m| : Int) : ℚ) < ((B + 1 : Int) : ℚ) := by
    rw [Int.cast_abs]
    push_cast
    exact h
  have h2 : |m| < B + 1 := by exact_mod_cast h1
  omega

/-- Below the overflow threshold the result of rounding is a binary64 value. -/
theorem roundFloat64_isFloat64 {x : ℚ} (hfin : |roundFloat64 x| < (2 : ℚ) ^ (1024 : Int)) :
    IsFloat64 (roundFloat64 x) := by
  by_cases hx : x = 0
  · subst hx
    rw [roundFloat64_zero]
    exact ⟨0, 0, by norm_num, by norm_num, by norm_num, by simp⟩
  obtain ⟨e, hlo, hr, hup, hcase⟩ := roundFloat64_setup hx
  rw [hr] at hfin ⊢
  have h2 : (2 : ℚ) ≠ 0 := by norm_num
  have hu : (0 : ℚ) < (2 : ℚ) ^ (e - 52) := zpow_pos (by norm_num) _
  have hu0 : (2 : ℚ) ^ (e - 52) ≠ 0 := ne_of_gt hu
  have ht : |x / (2 : ℚ) ^ (e - 52)| < (2 : ℚ) ^ (53 : Int) := by
    rw [abs_div, abs_of_pos hu, div_lt_iff₀ hu, ← zpow_add₀ h2]
    have : (53 : Int) + (e - 52) = e + 1 := by ring
    rw [this]
    exact hup
  have hlow : e = -1022 ∨ (2 : ℚ) ^ (52 : Int) ≤ |x / (2 : ℚ) ^ (e - 52)| := by
    rcases hcase with h | h
    · left; exact h
    · right
      rw [abs_div, abs_of_pos hu, le_div_iff₀ hu, ← zpow_add₀ h2]
      have : (52 : Int) + (e - 52) = e := by ring
      rw [this]
      exact h
  have hround := (roundHalfEven_spec (x / (2 : ℚ) ^ (e - 52))).1
  generalize roundHalfEven (x / (2 : ℚ) ^ (e - 52)) = m at hround hfin ⊢
  generalize x / (2 : ℚ) ^ (e - 52) = t at ht hround hlow
  have htm : |(m : ℚ)| ≤ |t| + 1 / 2 := by
    have h1 : |(m : ℚ)| ≤ |t| + |(m : ℚ) - t| := by
      have := abs_add t ((m : ℚ) - t)
      simpa using this
    rw [abs_sub_comm] at h1
    linarith
  have hmt : |t| ≤ |(m : ℚ)| + 1 / 2 := by
    have h1 : |t| ≤ |(m : ℚ)| + |t - (m : ℚ)| := by
      have := abs_add (m : ℚ) (t - (m : ℚ))
      simpa using this
    linarith
  have hm53 : |m| ≤ 2 ^ 53 := by
    apply int_abs_le_of_cast_lt
    have : (2 : ℚ) ^ (53 : Int) = ((2 ^ 53 : Int) : ℚ) := by norm_num
    rw [this] at ht
    linarith
  have habsr : |(m : ℚ) * (2 : ℚ) ^ (e - 52)| = |(m : ℚ)| * (2 : ℚ) ^ (e - 52) := by
    rw [abs_mul, abs_of_pos hu]
  rw [habsr] at hfin
  rcases lt_or_eq_of_le hm53 with hlt | heq
  · refine ⟨m, e - 52, hlt, by omega, ?_, rfl⟩
    by_contra hcon
    rw [not_le] at hcon
    have ht52 : (2 : ℚ) ^ (52 : Int) ≤ |t| := by
      rcases hlow with h | h
      · omega
      · exact h
    have hm52 : (2 : ℚ) ^ (52 : Int) ≤ |(m : ℚ)| := by
      have hq : ((2 ^ 52 - 1 : Int) : ℚ) < ((|m| : Int) : ℚ) := by
        rw [Int.cast_abs]
        have : (2 : ℚ) ^ (52 : Int) = ((2 ^ 52 : Int) : ℚ) := by norm_num
        rw [this] at ht52
        push_cast at ht52 ⊢
        linarith
      have hz : 2 ^ 52 - 1 < |m| := by exact_mod_cast hq
      have hz2 : (2 : Int) ^ 52 ≤ |m| := by omega
      have hq2 : ((2 ^ 52 : Int) : ℚ) ≤ ((|m| : Int) : ℚ) := by exact_mod_cast hz2
      rw [Int.cast_abs] at hq2
      have : (2 : ℚ) ^ (52 : Int) = ((2 ^ 52 : Int) : ℚ) := by norm_num
      rw [this]
      exact hq2
    have hbig : (2 : ℚ) ^ (1024 : Int) ≤ |(m : ℚ)| * (2 : ℚ) ^ (e - 52) := by
      calc (2 : ℚ) ^ (1024 : Int) ≤ (2 : ℚ) ^ e := zpow_le_zpow_right₀ (by norm_num) (by omega)
        _ = (2 : ℚ) ^ (52 : Int) * (2 : ℚ) ^ (e - 52) := by
            rw [← zpow_add₀ h2]; congr 1; ring
        _ ≤ |(m : ℚ)| * (2 : ℚ) ^ (e - 52) := mul_le_mul_of_nonneg_right hm52 hu.le
    exact absurd hfin (not_lt.2 hbig)
  · have hmq : |(m : ℚ)| = (2 : ℚ) ^ (53 : Int) := by
      rw [← Int.cast_abs, heq]
      norm_num
    rw [hmq, ← zpow_add₀ h2] at hfin
    have he : 53 + (e - 52) < 1024 := (zpow_lt_zpow_iff_right₀ (by norm_num)).1 hfin
    have hpe : (2 : ℚ) ^ (e - 51) = 2 * (2 : ℚ) ^ (e - 52) := by
      have : e - 51 = 1 + (e - 52) := by ring
      rw [this, zpow_add₀ h2]
      norm_num
    rcases (abs_eq (by norm_num : (0 : Int) ≤ 2 ^ 53)).1 heq with hm | hm
    · refine ⟨2 ^ 52, e - 51, by norm_num, by omega, by omega, ?_⟩
      rw [hm, hpe]
      push_cast
      ring
    · refine ⟨-(2 ^ 52), e - 51, by norm_num, by omega, by omega, ?_⟩
      rw [hm, hpe]
      push_cast
      ring

/-- In a tie the result of rounding is the candidate with the even significand:
it is an even multiple of its distance to the other candidate. -/
theorem roundFloat64_tie (x : ℚ) {y : ℚ} (hy : IsFloat64 y) (hne : y ≠ roundFloat64 x)
    (htie : |x - y| = |x - roundFloat64 x|) :
    ∃ k : Int, roundFloat64 x = 2 * (k : ℚ) * (roundFloat64 x - y) := by
  by_cases hx : x = 0
  · subst hx
    rw [roundFloat64_zero] at hne htie
    simp only [zero_sub, abs_neg, abs_zero, abs_eq_zero] at htie
    exact absurd htie hne
  obtain ⟨e, -, hr, -, hcase⟩ := roundFloat64_setup hx
  rw [hr] at hne htie ⊢
  have hu : (0 : ℚ) < (2 : ℚ) ^ (e - 52) := zpow_pos (by norm_num) _
  have hu0 : (2 : ℚ) ^ (e - 52) ≠ 0 := ne_of_gt hu
  rcases roundFloat64_nearest_aux hx hcase hy with ⟨n, rfl⟩ | ⟨n, hn⟩
  swap
  · have := grid_nearest x _ hu n
    rw [htie] at hn
    exact absurd hn (not_lt.2 this)
  obtain ⟨hhalf, heven⟩ := roundHalfEven_spec (x / (2 : ℚ) ^ (e - 52))
  generalize (2 : ℚ) ^ (e - 52) = u at hne htie hu hu0 hhalf heven ⊢
  have e1 : ∀ j : Int, |x - (j : ℚ) * u| = |x / u - (j : ℚ)| * u := by
    intro j
    have : x - (j : ℚ) * u = (x / u - (j : ℚ)) * u := by
      rw [sub_mul, div_mul_cancel₀ x hu0]
    rw [this, abs_mul, abs_of_pos hu]
  rw [e1, e1] at htie
  have htie2 : |x / u - (n : ℚ)| = |x / u - (roundHalfEven (x / u) : ℚ)| :=
    mul_right_cancel₀ hu0 htie
  generalize roundHalfEven (x / u) = m at hne hhalf heven htie2 ⊢
  generalize x / u = t at hhalf heven htie2
  have hmn : m ≠ n := by
    intro h
    apply hne
    rw [h]
  have hdist : |((m - n : Int) : ℚ)| ≤ 2 * |t - (m : ℚ)| := by
    have : ((m - n : Int) : ℚ) = (t - (n : ℚ)) - (t - (m : ℚ)) := by push_cast; ring
    rw [this]
    calc |(t - (n : ℚ)) - (t - (m : ℚ))| ≤ |t - (n : ℚ)| + |t - (m : ℚ)| := abs_sub _ _
      _ = 2 * |t - (m : ℚ)| := by rw [htie2]; ring
  have hle1 : |m - n| ≤ 1 := by
    apply int_abs_le_of_cast_lt
    push_cast at hdist ⊢
    linarith
  have hge1 : 1 ≤ |m - n| := by
    have : m - n ≠ 0 := sub_ne_zero.2 hmn
    exact Int.one_le_abs this
  have habs1 : |m - n| = 1 := le_antisymm hle1 hge1
  have hq1 : |((m - n : Int) : ℚ)| = 1 := by
    rw [← Int.cast_abs, habs1]
    norm_num
  have hhalf2 : |t - (m : ℚ)| = 1 / 2 := by
    rw [hq1] at hdist
    linarith
  have hm2 := heven hhalf2
  obtain ⟨k, hk⟩ : ∃ k : Int, m = 2 * k := ⟨m / 2, by omega⟩
  rcases (abs_eq (by norm_num : (0 : Int) ≤ 1)).1 habs1 with h1 | h1
  · refine ⟨k, ?_⟩
    have hn : n = m - 1 := by omega
    rw [hn, hk]
    push_cast
    ring
  · refine ⟨-k, ?_⟩
    have hn : n = m + 1 := by omega
    rw [hn, hk]
    push_cast
    ring

theorem isNearestFloat64_unique {x r s : ℚ} (hr : IsNearestFloat64 x r)
    (hs : IsNearestFloat64 x s) : r = s := by
  by_contra hne
  have h1 := hr.2.1 s hs.1
  have h2 := hs.2.1 r hr.1
  have heq : |x - s| = |x - r| := le_antisymm h2 h1
  obtain ⟨k, hk⟩ := hr.2.2 s hs.1 (fun h => hne h.symm) heq
  obtain ⟨j, hj⟩ := hs.2.2 r hr.1 hne heq.symm
  have hd : r - s ≠ 0 := sub_ne_zero.2 hne
  have hsum : (1 : ℚ) * (r - s) = (2 * ((k : ℚ) + (j : ℚ))) * (r - s) := by
    have h3 : r - s = 2 * (k : ℚ) * (r - s) - 2 * (j : ℚ) * (s - r) := by
      rw [← hk, ← hj]
    linarith
  have hone : (1 : ℚ) = 2 * ((k : ℚ) + (j : ℚ)) := mul_right_cancel₀ hd hsum
  have hz : (1 : Int) = 2 * (k + j) := by exact_mod_cast hone
  omega

theorem isNearestFloat64_exact {x r : ℚ} (hr : IsNearestFloat64 x r) (hx : IsFloat64 x) :
    r = x := by
  have h := hr.2.1 x hx
  simp only [sub_self, abs_zero] at h
  have h0 : x - r = 0 := abs_eq_zero.1 (le_antisymm h (abs_nonneg _))
  linarith

theorem roundFloat64_isNearest {x : ℚ} (hfin : |roundFloat64 x| < (2 : ℚ) ^ (1024 : Int)) :
    IsNearestFloat64 x (roundFloat64 x) :=
  ⟨roundFloat64_isFloat64 hfin, fun _ hy => roundFloat64_nearest x hy,
    fun _ hy hne htie => roundFloat64_tie x hy hne htie⟩

theorem scanFloat64_isNearest {x : ℚ} {r : Float64} (h : scanFloat64 x = some r) :
    IsNearestFloat64 x r := by
  unfold scanFloat64 at h
  simp only at h
  split at h
  · rename_i hfin
    simp only [Option.some.injEq] at h
    subst h
    rw [pow2_eq] at hfin
    exact roundFloat64_isNearest hfin
  · exact absurd h (by simp)

theorem maxFloat64_isFloat64 :
    IsFloat64 ((2 : ℚ) ^ (1024 : Int) - (2 : ℚ) ^ (971 : Int)) ∧
    IsFloat64 (-((2 : ℚ) ^ (1024 : Int) - (2 : ℚ) ^ (971 : Int))) := by
  have h : (2 : ℚ) ^ (1024 : Int) - (2 : ℚ) ^ (971 : Int) =
      ((2 ^ 53 - 1 : Int) : ℚ) * (2 : ℚ) ^ (971 : Int) := by
    have : (2 : ℚ) ^ (1024 : Int) = (2 : ℚ) ^ (53 : Int) * (2 : ℚ) ^ (971 : Int) := by
      rw [← zpow_add₀ (by norm_num : (2 : ℚ) ≠ 0)]
      norm_num
    rw [this]
    push_cast
    ring
  constructor
  · exact ⟨2 ^ 53 - 1, 971, by norm_num, by norm_num, by norm_num, h⟩
  · refine ⟨-(2 ^ 53 - 1), 971, by norm_num, by norm_num, by norm_num, ?_⟩
    rw [h]
    push_cast
    ring

/-- The scan fails exactly on the values that round beyond the largest finite binary64
value: those at least half a unit in the last place above it. -/
theorem scanFloat64_eq_none_iff (x : ℚ) :
    scanFloat64 x = none ↔ (2 : ℚ) ^ (1024 : Int) - (2 : ℚ) ^ (970 : Int) ≤ |x| := by
  have h970 : (2 : ℚ) ^ (971 : Int) = 2 * (2 : ℚ) ^ (970 : Int) := by
    have : (971 : Int) = 1 + 970 := by norm_num
    rw [this, zpow_add₀ (by norm_num : (2 : ℚ) ≠ 0)]
    norm_num
  have hp970 : (0 : ℚ) < (2 : ℚ) ^ (970 : Int) := zpow_pos (by norm_num) _
  have hscan : scanFloat64 x = none ↔ (2 : ℚ) ^ (1024 : Int) ≤ |roundFloat64 x| := by
    unfold scanFloat64
    simp only [pow2_eq]
    split
    · rename_i h
      simp only [false_iff, not_le, reduceCtorEq]
      exact h
    · rename_i h
      simp only [true_iff]
      exact not_lt.1 h
  rw [hscan]
  constructor
  · intro hbig
    by_contra hsmall
    rw [not_le] at hsmall
    have hM := roundFloat64_nearest x maxFloat64_isFloat64.1
    have hM' := roundFloat64_nearest x maxFloat64_isFloat64.2
    have hx1 := le_abs_self x
    have hx2 := neg_abs_le x
    rcases le_abs'.1 hbig with hneg | hpos
    · have h1 : x - roundFloat64 x ≤ |x - roundFloat64 x| := le_abs_self _
      by_cases hc : -((2 : ℚ) ^ (1024 : Int) - (2 : ℚ) ^ (971 : Int)) ≤ x
      · have e1 : |x - -((2 : ℚ) ^ (1024 : Int) - (2 : ℚ) ^ (971 : Int))| =
            x + ((2 : ℚ) ^ (1024 : Int) - (2 : ℚ) ^ (971 : Int)) := by
          rw [abs_of_nonneg (by linarith)]
          ring
        rw [e1] at hM'
        linarith
      · rw [not_le] at hc
        have e1 : |x - -((2 : ℚ) ^ (1024 : Int) - (2 : ℚ) ^ (971 : Int))| =
            -(x + ((2 : ℚ) ^ (1024 : Int) - (2 : ℚ) ^ (971 : Int))) := by
          rw [abs_of_nonpos (by linarith)]
          ring
        rw [e1] at hM'
        linarith
    · have h1 : roundFloat64 x - x ≤ |x - roundFloat64 x| := by
        rw [abs_sub_comm]; exact le_abs_self _
      by_cases hc : x ≤ (2 : ℚ) ^ (1024 : Int) - (2 : ℚ) ^ (971 : Int)
      · have e1 : |x - ((2 : ℚ) ^ (1024 : Int) - (2 : ℚ) ^ (971 : Int))| =
            ((2 : ℚ) ^ (1024 : Int) - (2 : ℚ) ^ (971 : Int)) - x := by
          rw [abs_of_nonpos (by linarith)]
          ring
        rw [e1] at hM
        linarith
      · rw [not_le] at hc
        have e1 : |x - ((2 : ℚ) ^ (1024 : Int) - (2 : ℚ) ^ (971 : Int))| =
            x - ((2 : ℚ) ^ (1024 : Int) - (2 : ℚ) ^ (971 : Int)) :=
          abs_of_nonneg (by linarith)
        rw [e1] at hM
        linarith
  · intro hT
    have h2 : (2 : ℚ) ≠ 0 := by norm_num
    have h1023 : (2 : ℚ) ^ (1024 : Int) = 2 * (2 : ℚ) ^ (1023 : Int) := by
      have : (1024 : Int) = 1 + 1023 := by norm_num
      rw [this, zpow_add₀ h2]
      norm_num
    have hlt970 : (2 : ℚ) ^ (970 : Int) < (2 : ℚ) ^ (1023 : Int) :=
      zpow_lt_zpow_right₀ (by norm_num) (by norm_num)
    have hx1023 : (2 : ℚ) ^ (1023 : Int) ≤ |x| := by linarith
    have hx0 : x ≠ 0 := by
      intro h0
      rw [h0, abs_zero] at hx1023
      exact absurd hx1023 (not_le.2 (zpow_pos (by norm_num) _))
    obtain ⟨e, -, hr, hup, hcase⟩ := roundFloat64_setup hx0
    have he : 1023 ≤ e := by
      have : (2 : ℚ) ^ (1023 : Int) < (2 : ℚ) ^ (e + 1) := lt_of_le_of_lt hx1023 hup
      have := (zpow_lt_zpow_iff_right₀ (by norm_num : (1 : ℚ) < 2)).1 this
      omega
    have hlow : (2 : ℚ) ^ e ≤ |x| := by
      rcases hcase with h | h
      · omega
      · exact h
    have hu : (0 : ℚ) < (2 : ℚ) ^ (e - 52) := zpow_pos (by norm_num) _
    rw [hr, abs_mul, abs_of_pos hu]
    obtain ⟨hhalf, heven⟩ := roundHalfEven_spec (x / (2 : ℚ) ^ (e - 52))
    have htabs : |x / (2 : ℚ) ^ (e - 52)| = |x| / (2 : ℚ) ^ (e - 52) := by
      rw [abs_div, abs_of_pos hu]
    generalize roundHalfEven (x / (2 : ℚ) ^ (e - 52)) = m at hhalf heven ⊢
    generalize x / (2 : ℚ) ^ (e - 52) = t at hhalf heven htabs
    have hmt : |t| ≤ |(m : ℚ)| + |t - (m : ℚ)| := by
      have := abs_add (m : ℚ) (t - (m : ℚ))
      simpa using this
    rcases lt_or_eq_of_le he with hgt | heq
    · have ht52 : (2 : ℚ) ^ (52 : Int) ≤ |t| := by
        rw [htabs, le_div_iff₀ hu, ← zpow_add₀ h2]
        have : (52 : Int) + (e - 52) = e := by ring
        rw [this]
        exact hlow
      have hq : ((2 ^ 52 - 1 : Int) : ℚ) < ((|m| : Int) : ℚ) := by
        rw [Int.cast_abs]
        have : (2 : ℚ) ^ (52 : Int) = ((2 ^ 52 : Int) : ℚ) := by norm_num
        rw [this] at ht52
        push_cast at ht52 ⊢
        linarith
      have hz : 2 ^ 52 - 1 < |m| := by exact_mod_cast hq
      have hz2 : (2 : Int) ^ 52 ≤ |m| := by omega
      have hq2 : ((2 ^ 52 : Int) : ℚ) ≤ ((|m| : Int) : ℚ) := by exact_mod_cast hz2
      rw [Int.cast_abs] at hq2
      calc (2 : ℚ) ^ (1024 : Int) ≤ (2 : ℚ) ^ e := zpow_le_zpow_right₀ (by norm_num) (by omega)
        _ = ((2 ^ 52 : Int) : ℚ) * (2 : ℚ) ^ (e - 52) := by
            have : e = 52 + (e - 52) := by ring
            conv_lhs => rw [this, zpow_add₀ h2]
            norm_num
        _ ≤ |(m : ℚ)| * (2 : ℚ) ^ (e - 52) := mul_le_mul_of_nonneg_right hq2 hu.le
    · subst heq
      have hu971 : (2 : ℚ) ^ ((1023 : Int) - 52) = (2 : ℚ) ^ (971 : Int) := by norm_num
      rw [hu971] at htabs hu ⊢
      have h1024 : (2 : ℚ) ^ (1024 : Int) = ((2 ^ 53 : Int) : ℚ) * (2 : ℚ) ^ (971 : Int) := by
        have : (1024 : Int) = 53 + 971 := by norm_num
        rw [this, zpow_add₀ h2]
        norm_num
      have ht53 : ((2 ^ 53 : Int) : ℚ) - 1 / 2 ≤ |t| := by
        rw [htabs, le_div_iff₀ hu, sub_mul, ← h1024, h970]
        linarith
      have hq : ((2 ^ 53 - 2 : Int) : ℚ) < ((|m| : Int) : ℚ) := by
        rw [Int.cast_abs]
        push_cast at ht53 ⊢
        linarith
      have hz : 2 ^ 53 - 2 < |m| := by exact_mod_cast hq
      have hz53 : (2 : Int) ^ 53 ≤ |m| := by
        by_contra hcon
        have hm : |m| = 2 ^ 53 - 1 := by omega
        have hmq : |(m : ℚ)| = ((2 ^ 53 : Int) : ℚ) - 1 := by
          rw [← Int.cast_abs, hm]
          push_cast
          ring
        have hhalf2 : |t - (m : ℚ)| = 1 / 2 := by
          apply le_antisymm hhalf
          linarith
        have hev := heven hhalf2
        rcases (abs_eq (by norm_num : (0 : Int) ≤ 2 ^ 53 - 1)).1 hm with h | h <;> omega
      have hq2 : ((2 ^ 53 : Int) : ℚ) ≤ ((|m| : Int) : ℚ) := by exact_mod_cast hz53
      rw [Int.cast_abs] at hq2
      rw [h1024]
      exact mul_le_mul_of_nonneg_right hq2 hu.le

/-! ## Facts about `Time.Format` -/

theorem digitChar_isDigit (n : Nat) (h : n < 10) : (Nat.digitChar n).isDigit = true := by
  interval_cases n <;> decide

theorem toDigitsCore_isDigit : ∀ (f n : Nat) (acc : List Char),
    (∀ c ∈ acc, c.isDigit = true) → ∀ c ∈ Nat.toDigitsCore 10 f n acc, c.isDigit = true := by
  intro f
  induction f with
  | zero => intro n acc hacc; simpa [Nat.toDigitsCore] using hacc
  | succ f ih =>
    intro n acc hacc
    simp only [Nat.toDigitsCore]
    have hd := digitChar_isDigit (n % 10) (Nat.mod_lt _ (by norm_num))
    have hacc2 : ∀ c ∈ Nat.digitChar (n % 10) :: acc, c.isDigit = true := by
      intro c hc
      rcases List.mem_cons.1 hc with rfl | hc
      · exact hd
      · exact hacc c hc
    split
    · exact hacc2
    · exact ih _ _ hacc2

theorem appendInt_spec {x w : Nat} (hw : 0 < w) (hx : x < 10 ^ w) :
    (appendInt x w).data.length = w ∧ ∀ c ∈ (appendInt x w).data, c.isDigit = true := by
  have hlen : (Nat.repr x).length ≤ w := Nat.repr_length x w hw hx
  have hdig : ∀ c ∈ (Nat.repr x).data, c.isDigit = true := by
    simp only [Nat.repr, Nat.toDigits, List.asString]
    exact toDigitsCore_isDigit _ _ [] (by simp)
  unfold appendInt
  simp only [String.data_append, List.length_append, List.length_replicate]
  constructor
  · have : (Nat.repr x).data.length = (Nat.repr x).length := rfl
    omega
  · intro c hc
    rcases List.mem_append.1 hc with hc | hc
    · rw [List.mem_replicate] at hc
      rw [hc.2]
      decide
    · exact hdig c hc

theorem Time.Format_isYMD (t : Time) (hy : t.Year < 10000) (hm : t.Month < 100)
    (hd : t.Day < 100) : isYMD t.Format = true := by
  obtain ⟨hyl, hyd⟩ := appendInt_spec (x := t.Year) (w := 4) (by norm_num) (by norm_num; exact hy)
  obtain ⟨hml, hmd⟩ := appendInt_spec (x := t.Month) (w := 2) (by norm_num) (by norm_num; exact hm)
  obtain ⟨hdl, hdd⟩ := appendInt_spec (x := t.Day) (w := 2) (by norm_num) (by norm_num; exact hd)
  unfold isYMD Time.Format
  simp only [String.data_append]
  generalize (appendInt t.Year 4).data = ys at hyl hyd
  generalize (appendInt t.Month 2).data = ms at hml hmd
  generalize (appendInt t.Day 2).data = ds at hdl hdd
  match ys, hyl, hyd with
  | [y1, y2, y3, y4], _, hyd =>
    match ms, hml, hmd with
    | [m1, m2], _, hmd =>
      match ds, hdl, hdd with
      | [d1, d2], _, hdd =>
        simp only [List.mem_cons, List.mem_singleton, forall_eq_or_imp, forall_eq,
          List.not_mem_nil, false_implies, implies_true, and_true] at hyd hmd hdd
        simp [hyd, hmd, hdd]

theorem digitChar_toNat (n : Nat) (h : n < 10) : (Nat.digitChar n).toNat - 48 = n := by
  interval_cases n <;> decide

theorem toDigitsCore_value : ∀ (f n : Nat) (acc : List Char), n < f →
    (Nat.toDigitsCore 10 f n acc).foldl (fun n c => n * 10 + (c.toNat - 48)) 0 =
      acc.foldl (fun n c => n * 10 + (c.toNat - 48)) n := by
  intro f
  induction f with
  | zero => intro n acc h; omega
  | succ f ih =>
    intro n acc hlt
    simp only [Nat.toDigitsCore]
    have hd := digitChar_toNat (n % 10) (Nat.mod_lt _ (by norm_num))
    split
    · rename_i h0
      simp only [List.foldl_cons, hd, Nat.zero_mul, Nat.zero_add]
      congr 1
      omega
    · rename_i h0
      rw [ih (n / 10) _ (by omega)]
      simp only [List.foldl_cons, hd]
      congr 1
      omega

theorem toDigitsCore_ne_nil : ∀ (f n : Nat) (acc : List Char), 0 < f →
    Nat.toDigitsCore 10 f n acc ≠ [] := by
  intro f
  induction f with
  | zero => intro n acc h; omega
  | succ f ih =>
    intro n acc _
    simp only [Nat.toDigitsCore]
    split
    · simp
    · rename_i h0
      cases f with
      | zero => simp [Nat.toDigitsCore]
      | succ f => exact ih _ _ (by omega)

theorem readDigits_appendInt (x w : Nat) : readDigits (appendInt x w).data = some x := by
  have hdig : ∀ c ∈ (Nat.repr x).data, c.isDigit = true := by
    simp only [Nat.repr, Nat.toDigits, List.asString]
    exact toDigitsCore_isDigit _ _ [] (by simp)
  have hne : (Nat.repr x).data ≠ [] := by
    simp only [Nat.repr, Nat.toDigits, List.asString]
    exact toDigitsCore_ne_nil _ _ [] (by omega)
  have hval : (Nat.repr x).data.foldl (fun n c => n * 10 + (c.toNat - 48)) 0 = x := by
    simp only [Nat.repr, Nat.toDigits, List.asString]
    rw [toDigitsCore_value _ _ [] (by omega)]
    rfl
  have hzero : ∀ (k n : Nat), (List.replicate k '0').foldl
      (fun n c => n * 10 + (c.toNat - 48)) 0 = 0 := by
    intro k _
    induction k with
    | zero => rfl
    | succ k ih => simpa [List.replicate_succ] using ih
  unfold readDigits appendInt
  simp only [String.data_append]
  rw [if_pos]
  · rw [List.foldl_append, hzero _ 0, hval]
  · constructor
    · simp [hne]
    · rw [List.all_eq_true]
      intro c hc
      rcases List.mem_append.1 hc with hc | hc
      · rw [List.mem_replicate] at hc
        rw [hc.2]
        decide
      · exact hdig c hc

/-- The layout `2006-01-02` writes the year, the month and the day of the clock. -/
theorem Time.Format_denotes (t : Time) : DenotesDate t.Format t.Year t.Month t.Day := by
  refine ⟨(appendInt t.Year 4).data, (appendInt t.Month 2).data, (appendInt t.Day 2).data,
    ?_, readDigits_appendInt _ _, readDigits_appendInt _ _, readDigits_appendInt _ _⟩
  unfold Time.Format
  simp [String.data_append]

theorem readDigits_dash_not_mem {cs : List Char} {n : Nat} (h : readDigits cs = some n) :
    '-' ∉ cs := by
  unfold readDigits at h
  split at h
  · rename_i hc
    intro hmem
    have := List.all_eq_true.1 hc.2 '-' hmem
    exact absurd this (by decide)
  · exact absurd h (by simp)

theorem append_cons_split {a : Char} : ∀ (l₁ l₂ r₁ r₂ : List Char), a ∉ l₁ → a ∉ l₂ →
    l₁ ++ a :: r₁ = l₂ ++ a :: r₂ → l₁ = l₂ ∧ r₁ = r₂ := by
  intro l₁
  induction l₁ with
  | nil =>
    intro l₂ r₁ r₂ _ h2 h
    cases l₂ with
    | nil => simpa using h
    | cons b l₂ =>
      simp only [List.nil_append, List.cons_append, List.cons.injEq] at h
      exact absurd (h.1 ▸ List.mem_cons_self _ _) h2
  | cons c l₁ ih =>
    intro l₂ r₁ r₂ h1 h2 h
    cases l₂ with
    | nil =>
      simp only [List.nil_append, List.cons_append, List.cons.injEq] at h
      exact absurd (h.1 ▸ List.mem_cons_self _ _) h1
    | cons b l₂ =>
      simp only [List.cons_append, List.cons.injEq] at h
      obtain ⟨h3, h4⟩ := ih l₂ r₁ r₂ (fun hm => h1 (List.mem_cons_of_mem _ hm))
        (fun hm => h2 (List.mem_cons_of_mem _ hm)) h.2
      exact ⟨by rw [h.1, h3], h4⟩

/-- A text denotes at most one date. -/
theorem denotesDate_unique {s : String} {y m d y' m' d' : Nat}
    (h : DenotesDate s y m d) (h' : DenotesDate s y' m' d') : y = y' ∧ m = m' ∧ d = d' := by
  obtain ⟨ys, ms, ds, hs, hy, hm, hd⟩ := h
  obtain ⟨ys', ms', ds', hs', hy', hm', hd'⟩ := h'
  rw [hs] at hs'
  obtain ⟨rfl, h2⟩ := append_cons_split _ _ _ _ (readDigits_dash_not_mem hy)
    (readDigits_dash_not_mem hy') hs'
  obtain ⟨rfl, rfl⟩ := append_cons_split _ _ _ _ (readDigits_dash_not_mem hm)
    (readDigits_dash_not_mem hm') h2
  rw [hy] at hy'
  rw [hm] at hm'
  rw [hd] at hd'
  simp only [Option.some.injEq] at hy' hm' hd'
  exact ⟨hy', hm', hd'⟩

/-! ## Facts about the handler -/

open Customer_OrderRoutes

theorem Get_getPriceQuery_ok {env : Env} {db : Store} {q : Int} {tp : Float64}
    (h : Get env (getPriceQuery db q) = .ok tp) :
    env.getErr = none ∧ ∃ r, latestRow db.inventory_available = some r ∧
      scanFloat64 (r.price * (q : ℚ)) = some tp := by
  unfold Get at h
  rw [getPriceQuery_eq] at h
  cases hg : env.getErr with
  | some e => rw [hg] at h; simp at h
  | none =>
    rw [hg] at h
    refine ⟨rfl, ?_⟩
    cases hl : latestRow db.inventory_available with
    | none => rw [hl] at h; simp at h
    | some r =>
      rw [hl] at h
      simp only at h
      cases hs : scanFloat64 (r.price * (q : ℚ)) with
      | none => rw [hs] at h; simp at h
      | some f =>
        rw [hs] at h
        simp only [Except.ok.injEq] at h
        subst h
        exact ⟨r, rfl, hs⟩

theorem save_order_ok_inv {env : Env} {db : Store} {req : InsertCustomerOrder}
    {msg : String} {id : Int} {tp : Float64} {o : InsertCustomerOrder}
    (h : (save_order env db (.ok req)).response = .ok msg id tp o) :
    req.CustomerID ≠ "" ∧
    ∃ q r, Atoi req.Num_gallons_order = (q, none) ∧
      latestRow db.inventory_available = some r ∧
      scanFloat64 (r.price * (q : ℚ)) = some tp ∧ id = env.lastInsertId ∧
      o = defaulted env req ∧
      (save_order env db (.ok req)).store =
        { customer_order := db.customer_order ++
            [⟨env.lastInsertId, req.CustomerID, q, o.Date, env.insertNow, tp, o.Status⟩]
          inventory_available :=
            if o.Status = "Pending" then
              updateInventoryQuery env.updateNow db.inventory_available q
            else db.inventory_available } := by
  by_cases hc : req.CustomerID = ""
  · simp [save_order, hc] at h
  refine ⟨hc, ?_⟩
  rcases hA : Atoi req.Num_gallons_order with ⟨q, _ | err⟩
  swap
  · simp [save_order, hc, hA] at h
  cases hG : Get env (getPriceQuery db q) with
  | error e => simp [save_order, hc, hA, hG] at h
  | ok p =>
  obtain ⟨-, r, hl, hsc⟩ := Get_getPriceQuery_ok hG
  cases hb : env.beginErr with
  | some e => simp [save_order, hc, hA, hG, Beginx, hb] at h
  | none =>
  cases hi : env.insertErr with
  | some e => simp [save_order, hc, hA, hG, Beginx, hb, hi] at h
  | none =>
  cases hid : env.lastIdErr with
  | some e => simp [save_order, hc, hA, hG, Beginx, hb, hi, hid] at h
  | none =>
  refine ⟨q, r, rfl, hl, ?_⟩
  by_cases hd : req.Date = "" <;> by_cases hs0 : req.Status = "" <;>
    by_cases hsp : req.Status = "Pending" <;>
    cases hu : env.updateErr <;> cases hcm : env.commitErr <;>
    simp [save_order, hc, hA, hG, Beginx, hb, hi, hid, hcm, hu,
      hd, hs0, hsp, Tx.Commit, Tx.Rollback, Tx.ExecInsert, Tx.ExecUpdate, insertQuery,
      defaulted] at h ⊢ <;>
    (obtain ⟨-, rfl, rfl, rfl⟩ := h
     simp [hd, hs0, hsp, hsc])
  all_goals
    cases req
    simp_all

theorem save_order_error_store {env : Env} {db : Store} {body : Except String InsertCustomerOrder}
    {status : Nat} {msg : String} {det : Option Cause}
    (h : (save_order env db body).response = .error status msg det) :
    (save_order env db body).store = db := by
  cases body with
  | error e => rfl
  | ok req =>
  by_cases hc : req.CustomerID = ""
  · simp [save_order, hc]
  rcases hA : Atoi req.Num_gallons_order with ⟨q, _ | err⟩
  swap
  · simp [save_order, hc, hA]
  cases hG : Get env (getPriceQuery db q) with
  | error e => simp [save_order, hc, hA, hG]
  | ok p =>
  cases hb : env.beginErr with
  | some e => simp [save_order, hc, hA, hG, Beginx, hb]
  | none =>
  cases hi : env.insertErr with
  | some e =>
    simp [save_order, hc, hA, hG, Beginx, hb, hi, Tx.Rollback]
  | none =>
  cases hid : env.lastIdErr with
  | some e =>
    simp [save_order, hc, hA, hG, Beginx, hb, hi, hid, Tx.Rollback, Tx.ExecInsert]
  | none =>
  by_cases hd : req.Date = "" <;> by_cases hs0 : req.Status = "" <;>
    by_cases hsp : req.Status = "Pending" <;>
    cases hu : env.updateErr <;> cases hcm : env.commitErr <;>
    simp [save_order, hc, hA, hG, Beginx, hb, hi, hid, hcm, hu,
      hd, hs0, hsp, Tx.Commit, Tx.Rollback, Tx.ExecInsert, Tx.ExecUpdate, insertQuery] at h ⊢

theorem updateInventoryQuery_eq_of_nodup {rows : List InventoryRow} {r : InventoryRow}
    (hkey : (rows.map (fun x => x.inventory_id)).Nodup) (hl : latestRow rows = some r)
    (now : Nat) (n : Int) :
    updateInventoryQuery now rows n =
      rows.map (fun x =>
        if x = r then { x with total_quantity := x.total_quantity - n, last_updated := now }
        else x) := by
  unfold updateInventoryQuery
  rw [latestInventoryId_eq, hl]
  apply List.map_congr_left
  intro x hx
  have hr : r ∈ rows := (latestRow_isLatest hl).1
  have hiff : (some x.inventory_id = Option.map (fun r => r.inventory_id) (some r)) ↔ x = r := by
    simp only [Option.map_some', Option.some.injEq]
    constructor
    · intro hid
      exact List.inj_on_of_nodup_map hkey hx hr hid
    · rintro rfl
      rfl
  by_cases hxr : x = r
  · rw [if_pos (hiff.2 hxr), if_pos hxr]
  · rw [if_neg (fun hh => hxr (hiff.1 hh)), if_neg hxr]

theorem save_order_succeeds {env : Env} {db : Store} {req : InsertCustomerOrder} {q : Int}
    {tp : Float64} (hc : req.CustomerID ≠ "") (hq : Atoi req.Num_gallons_order = (q, none))
    (hG : Get env (getPriceQuery db q) = .ok tp)
    (hb : env.beginErr = none) (hi : env.insertErr = none)
    (hid : env.lastIdErr = none) (hu : env.updateErr = none) (hcm : env.commitErr = none) :
    (save_order env db (.ok req)).response =
      .ok "Order saved successfully" env.lastInsertId tp (defaulted env req) := by
  by_cases hd : req.Date = "" <;> by_cases hs0 : req.Status = "" <;>
    by_cases hsp : req.Status = "Pending" <;>
    simp [save_order, hc, hq, hG, Beginx, hb, hi, hid, hcm, hu,
      hd, hs0, hsp, Tx.Commit, defaulted]
  all_goals
    cases req
    simp_all

/-! ## The claims -/

/-- C1 as stated fails: at price 1.00 and a quantity of `2 ^ 53 + 1` gallons the
handler's `float64` holds `9007199254740992`, which is returned and stored, while the
exact product is `9007199254740993`. -/
theorem C1_counterexample :
    Atoi reqTie.Num_gallons_order = (9007199254740993, none) ∧
    IsLatest dbPriceOne.inventory_available ⟨1, 1000, 1, 50⟩ ∧
    (save_order envOk dbPriceOne (.ok reqTie)).response =
      .ok "Order saved successfully" 1 9007199254740992
        ⟨"7", "9007199254740993", "2026-11-02", "Confirmed"⟩ ∧
    (save_order envOk dbPriceOne (.ok reqTie)).store.customer_order =
      [⟨1, "7", 9007199254740993, "2026-11-02", 100, 9007199254740992, "Confirmed"⟩] ∧
    (9007199254740992 : ℚ) ≠ (1 : ℚ) * ((9007199254740993 : Int) : ℚ) := by
  refine ⟨by decide, ⟨by decide, ?_⟩, by decide!, by decide!, by norm_num⟩
  intro x hx
  have hmem : x ∈ [(⟨1, 1000, 1, 50⟩ : InventoryRow)] := hx
  rw [List.mem_singleton] at hmem
  rw [hmem]

/-- C1, amended: when `save_order` succeeds on a request whose `num_gallons_order`
parses to `q`, the `total_price` of the response and the `total_price` of the inserted
`customer_order` row are the same `float64`: the binary64 value nearest to `p * q`
(ties to the even significand), where `p` is the price of an `inventory_available` row
with the latest `last_updated`; it equals `p * q` exactly whenever `p * q` is itself a
binary64 value. -/
theorem C1_total_price_nearest_float64 (env : Env) (db : Store) (req : InsertCustomerOrder)
    (q : Int) (msg : String) (id : Int) (tp : ℚ) (o : InsertCustomerOrder)
    (hq : Atoi req.Num_gallons_order = (q, none))
    (hok : (save_order env db (.ok req)).response = .ok msg id tp o) :
    ∃ r, IsLatest db.inventory_available r ∧
      IsNearestFloat64 (r.price * (q : ℚ)) tp ∧
      (IsFloat64 (r.price * (q : ℚ)) → tp = r.price * (q : ℚ)) ∧
      ∃ row, (save_order env db (.ok req)).store.customer_order = db.customer_order ++ [row] ∧
        row.total_price = tp := by
  obtain ⟨-, q2, r, hq2, hl, hsc, -, -, hst⟩ := save_order_ok_inv hok
  rw [hq] at hq2
  simp only [Prod.mk.injEq, and_true] at hq2
  subst hq2
  have hnear := scanFloat64_isNearest hsc
  refine ⟨r, latestRow_isLatest hl, hnear, isNearestFloat64_exact hnear,
    ⟨env.lastInsertId, req.CustomerID, q, o.Date, env.insertNow, tp, o.Status⟩, ?_, rfl⟩
  rw [hst]

/-- C1, amended, on the scenario of the specification: price 2.50 and 40 gallons give
100.00, which is the exact product. -/
theorem C1_total_price_nearest_float64_witness :
    (∃ r, IsLatest dbStock1000.inventory_available r ∧
      IsNearestFloat64 (r.price * ((40 : Int) : ℚ)) 100 ∧
      (IsFloat64 (r.price * ((40 : Int) : ℚ)) → (100 : ℚ) = r.price * ((40 : Int) : ℚ)) ∧
      ∃ row, (save_order envOk dbStock1000 (.ok reqForty)).store.customer_order =
          dbStock1000.customer_order ++ [row] ∧
        row.total_price = 100) ∧
    (100 : ℚ) = 5 / 2 * ((40 : Int) : ℚ) :=
  ⟨C1_total_price_nearest_float64 envOk dbStock1000 reqForty 40 "Order saved successfully" 1
    100 ⟨"7", "40", "2026-11-02", "Pending"⟩ (by decide) (by decide!), by norm_num⟩

/-- C2: once the transaction is open (the request passed validation, the price was
read and `Beginx` succeeded), if the order insert, the retrieval of the inserted id,
the inventory update (attempted only for status `Pending`) or the commit fails, the
response is one of the four persistence failures and the committed store after the
call is the store before it; in particular the order row inserted before a failed
inventory update is not in `customer_order` afterwards. -/
theorem C2_rollback (env : Env) (db : Store) (req : InsertCustomerOrder) (q : Int) (p : ℚ)
    (hc : req.CustomerID ≠ "")
    (hq : Atoi req.Num_gallons_order = (q, none))
    (hp : Get env (getPriceQuery db q) = .ok p)
    (hb : env.beginErr = none)
    (hfail : env.insertErr ≠ none ∨ env.lastIdErr ≠ none ∨
      ((defaulted env req).Status = "Pending" ∧ env.updateErr ≠ none) ∨
      env.commitErr ≠ none) :
    isPersistenceFailure (save_order env db (.ok req)).response = true ∧
    (save_order env db (.ok req)).store = db ∧
    (save_order env db (.ok req)).store.customer_order = db.customer_order ∧
    DbCall.Beginx ∈ (save_order env db (.ok req)).calls ∧
    (save_order env db (.ok req)).calls.getLast? = some DbCall.Rollback := by
  have hresp : isPersistenceFailure (save_order env db (.ok req)).response = true ∧
      DbCall.Beginx ∈ (save_order env db (.ok req)).calls ∧
      (save_order env db (.ok req)).calls.getLast? = some DbCall.Rollback := by
    cases hi : env.insertErr with
    | some e => simp [save_order, hc, hq, hp, Beginx, hb, hi, isPersistenceFailure]
    | none =>
    cases hid : env.lastIdErr with
    | some e => simp [save_order, hc, hq, hp, Beginx, hb, hi, hid, isPersistenceFailure]
    | none =>
    simp only [hi, hid, ne_eq, not_true_eq_false, false_or, defaulted] at hfail
    by_cases hd : req.Date = "" <;> by_cases hs0 : req.Status = "" <;>
      by_cases hsp : req.Status = "Pending" <;>
      cases hu : env.updateErr <;> cases hcm : env.commitErr <;>
      simp [hs0, hsp, hu, hcm] at hfail <;>
      simp [save_order, hc, hq, hp, Beginx, hb, hi, hid, hcm, hu, hd, hs0, hsp, Tx.Commit,
        isPersistenceFailure]
  have hstore : (save_order env db (.ok req)).store = db := by
    rcases hr : (save_order env db (.ok req)).response with ⟨st, m, d⟩ | ⟨m, i, t, o⟩
    · exact save_order_error_store hr
    · rw [hr] at hresp
      simp [isPersistenceFailure] at hresp
  exact ⟨hresp.1, hstore, by rw [hstore], hresp.2⟩

/-- C2 on a run whose inventory update fails: stock and orders are as before. -/
theorem C2_rollback_witness :
    isPersistenceFailure (save_order envUpdateFails dbStock1000 (.ok reqForty)).response = true ∧
    (save_order envUpdateFails dbStock1000 (.ok reqForty)).store = dbStock1000 ∧
    (save_order envUpdateFails dbStock1000 (.ok reqForty)).store.customer_order =
      dbStock1000.customer_order ∧
    DbCall.Beginx ∈ (save_order envUpdateFails dbStock1000 (.ok reqForty)).calls ∧
    (save_order envUpdateFails dbStock1000 (.ok reqForty)).calls.getLast? =
      some DbCall.Rollback :=
  C2_rollback envUpdateFails dbStock1000 reqForty 40 100 (by decide) (by decide) (by decide!)
    (by decide) (Or.inr (Or.inr (Or.inl ⟨by decide, by decide⟩)))

/-- C3: when `save_order` succeeds on a request whose status is `Pending` or empty,
with `inventory_id` the key of `inventory_available`, the committed inventory after
the call is the inventory before it in which the row `r` with the latest
`last_updated` has `total_quantity` reduced by exactly the parsed quantity `q` (and
`last_updated` refreshed), its price unchanged, and every other row unchanged. -/
theorem C3_pending_decrements_latest (env : Env) (db : Store) (req : InsertCustomerOrder)
    (msg : String) (id : Int) (tp : ℚ) (o : InsertCustomerOrder)
    (hkey : InventoryKey db)
    (hst : req.Status = "Pending" ∨ req.Status = "")
    (hok : (save_order env db (.ok req)).response = .ok msg id tp o) :
    ∃ q r, Atoi req.Num_gallons_order = (q, none) ∧ IsLatest db.inventory_available r ∧
      o.Status = "Pending" ∧
      (save_order env db (.ok req)).store.inventory_available =
        db.inventory_available.map (fun x =>
          if x = r then
            { inventory_id := x.inventory_id, total_quantity := x.total_quantity - q,
              price := x.price, last_updated := env.updateNow }
          else x) := by
  obtain ⟨-, q, r, hq, hl, -, -, ho, hstore⟩ := save_order_ok_inv hok
  have hpend : o.Status = "Pending" := by
    rw [ho]
    rcases hst with h | h <;> simp [defaulted, h]
  refine ⟨q, r, hq, latestRow_isLatest hl, hpend, ?_⟩
  rw [hstore]
  simp only [hpend, if_true]
  exact updateInventoryQuery_eq_of_nodup hkey hl env.updateNow q

/-- C3 on the scenario of the specification: stock 1000 and 40 gallons give stock 960. -/
theorem C3_pending_decrements_latest_witness :
    (∃ q r, Atoi reqForty.Num_gallons_order = (q, none) ∧
      IsLatest dbStock1000.inventory_available r ∧
      (⟨"7", "40", "2026-11-02", "Pending"⟩ : InsertCustomerOrder).Status = "Pending" ∧
      (save_order envOk dbStock1000 (.ok reqForty)).store.inventory_available =
        dbStock1000.inventory_available.map (fun x =>
          if x = r then
            { inventory_id := x.inventory_id, total_quantity := x.total_quantity - q,
              price := x.price, last_updated := envOk.updateNow }
          else x)) ∧
    (save_order envOk dbStock1000 (.ok reqForty)).store.inventory_available =
      [⟨1, 960, 5 / 2, 101⟩] :=
  ⟨C3_pending_decrements_latest envOk dbStock1000 reqForty "Order saved successfully" 1 100
    ⟨"7", "40", "2026-11-02", "Pending"⟩ (by decide) (Or.inr (by decide)) (by decide!),
   by decide!⟩

/-- C4: when `save_order` succeeds on a request whose status is non-empty and not
exactly `Pending`, one order row is appended to `customer_order`, carrying the computed
`total_price` (the one the response returns: the `float64` nearest to the price of the
latest inventory row times the parsed quantity) and the request's status, and
`inventory_available` is the same after the call as before it. -/
theorem C4_non_pending_keeps_inventory (env : Env) (db : Store) (req : InsertCustomerOrder)
    (msg : String) (id : Int) (tp : ℚ) (o : InsertCustomerOrder)
    (hs0 : req.Status ≠ "") (hsp : req.Status ≠ "Pending")
    (hok : (save_order env db (.ok req)).response = .ok msg id tp o) :
    ∃ q r row, Atoi req.Num_gallons_order = (q, none) ∧ IsLatest db.inventory_available r ∧
      IsNearestFloat64 (r.price * (q : ℚ)) tp ∧
      (save_order env db (.ok req)).store.customer_order = db.customer_order ++ [row] ∧
      row.total_price = tp ∧ row.status = req.Status ∧
      (save_order env db (.ok req)).store.inventory_available = db.inventory_available := by
  obtain ⟨-, q, r, hq, hl, hsc, -, ho, hstore⟩ := save_order_ok_inv hok
  have hstat : o.Status = req.Status := by
    rw [ho]
    simp [defaulted, hs0]
  refine ⟨q, r, ⟨env.lastInsertId, req.CustomerID, q, o.Date, env.insertNow, tp, o.Status⟩,
    hq, latestRow_isLatest hl, scanFloat64_isNearest hsc, ?_, rfl, hstat, ?_⟩
  · rw [hstore]
  · rw [hstore]
    simp only [hstat, hsp, if_false]

/-- C4 on a `Confirmed` order: the order is stored at 100.00, the stock stays 1000;
the lower-case status `pending` leaves the stock alone as well. -/
theorem C4_non_pending_keeps_inventory_witness :
    (∃ q r row, Atoi reqConfirmed.Num_gallons_order = (q, none) ∧
      IsLatest dbStock1000.inventory_available r ∧
      IsNearestFloat64 (r.price * (q : ℚ)) 100 ∧
      (save_order envOk dbStock1000 (.ok reqConfirmed)).store.customer_order =
        dbStock1000.customer_order ++ [row] ∧
      row.total_price = 100 ∧ row.status = reqConfirmed.Status ∧
      (save_order envOk dbStock1000 (.ok reqConfirmed)).store.inventory_available =
        dbStock1000.inventory_available) ∧
    (save_order envOk dbStock1000 (.ok reqConfirmed)).store =
      ⟨[⟨1, "7", 40, "2026-10-31", 100, 100, "Confirmed"⟩], [⟨1, 1000, 5 / 2, 50⟩]⟩ ∧
    (save_order envOk dbStock1000 (.ok ⟨"7", "40", "", "pending"⟩)).store =
      ⟨[⟨1, "7", 40, "2026-11-02", 100, 100, "pending"⟩], [⟨1, 1000, 5 / 2, 50⟩]⟩ :=
  ⟨C4_non_pending_keeps_inventory envOk dbStock1000 reqConfirmed "Order saved successfully" 1
    100 reqConfirmed (by decide) (by decide) (by decide!), by decide!, by decide!⟩

/-- C5: a request whose `customer_id` is empty is answered with status 400 and the
error `Customer ID is required`; the store is unchanged and no store call is made. -/
theorem C5_missing_customer_id (env : Env) (db : Store) (req : InsertCustomerOrder)
    (h : req.CustomerID = "") :
    save_order env db (.ok req) = ⟨.error 400 "Customer ID is required" none, db, []⟩ := by
  simp [save_order, h]

/-- C5 on a request with an empty customer id. -/
theorem C5_missing_customer_id_witness :
    save_order envOk dbStock1000 (.ok reqNoCustomer) =
      ⟨.error 400 "Customer ID is required" none, dbStock1000, []⟩ :=
  C5_missing_customer_id envOk dbStock1000 reqNoCustomer (by decide)

/-- C6: a request with a non-empty `customer_id` whose `num_gallons_order` is not the
decimal text of an integer is answered with status 400 and the error
`Invalid number of gallons`; the store is unchanged and no store call is made. -/
theorem C6_non_integer_quantity (env : Env) (db : Store) (req : InsertCustomerOrder)
    (hc : req.CustomerID ≠ "") (hn : isIntegerText req.Num_gallons_order = false) :
    ∃ e, save_order env db (.ok req) =
      ⟨.error 400 "Invalid number of gallons" (some (.num e)), db, []⟩ := by
  rcases hA : Atoi req.Num_gallons_order with ⟨q, _ | err⟩
  · have := (Atoi_ok hA).1
    rw [hn] at this
    exact absurd this (by simp)
  · exact ⟨err, by simp [save_order, hc, hA]⟩

/-- C6 on the quantity text `4.5`; the texts `abc` and the empty text are not integer
texts either. -/
theorem C6_non_integer_quantity_witness :
    (∃ e, save_order envOk dbStock1000 (.ok reqFourPointFive) =
      ⟨.error 400 "Invalid number of gallons" (some (.num e)), dbStock1000, []⟩) ∧
    isIntegerText "abc" = false ∧ isIntegerText "" = false ∧ isIntegerText "4.5" = false :=
  ⟨C6_non_integer_quantity envOk dbStock1000 reqFourPointFive (by decide) (by decide),
    by decide, by decide, by decide⟩

/-- C7: on a store whose `inventory_available` is empty, a request that passes input
validation is answered with status 500 and the error `Failed to calculate price`; the
only store call is the price read (no transaction is opened) and the store is
unchanged. -/
theorem C7_no_inventory (env : Env) (db : Store) (req : InsertCustomerOrder)
    (hempty : db.inventory_available = [])
    (hc : req.CustomerID ≠ "") (hq : (Atoi req.Num_gallons_order).2 = none) :
    ∃ d, save_order env db (.ok req) =
      ⟨.error 500 "Failed to calculate price" (some d), db, [DbCall.Get]⟩ := by
  rcases hA : Atoi req.Num_gallons_order with ⟨q, _ | err⟩
  swap
  · rw [hA] at hq
    simp at hq
  have hl : latestRow db.inventory_available = none := latestRow_eq_none.2 hempty
  have hrows : getPriceQuery db q = [] := by
    rw [getPriceQuery_eq, hl]
  cases hg : env.getErr with
  | some e =>
    have hG : Get env (getPriceQuery db q) = .error (.store e) := by
      unfold Get
      rw [hg]
    exact ⟨.store e, by simp [save_order, hc, hA, hG]⟩
  | none =>
    have hG : Get env (getPriceQuery db q) = .error .noRows := by
      unfold Get
      rw [hg, hrows]
    exact ⟨.noRows, by simp [save_order, hc, hA, hG]⟩

/-- C7 on the store without inventory rows. -/
theorem C7_no_inventory_witness :
    ∃ d, save_order envOk dbNoInventory (.ok reqForty) =
      ⟨.error 500 "Failed to calculate price" (some d), dbNoInventory, [DbCall.Get]⟩ :=
  C7_no_inventory envOk dbNoInventory reqForty (by decide) (by decide) (by decide)

/-- C8 as stated fails: with stock 10, a `Pending` order for 40 gallons succeeds and
leaves the inventory row with `total_quantity = -30`. -/
theorem C8_counterexample :
    (∀ x ∈ dbStock10.inventory_available, 0 ≤ x.total_quantity) ∧
    (save_order envOk dbStock10 (.ok reqForty)).response =
      .ok "Order saved successfully" 1 100 ⟨"7", "40", "2026-11-02", "Pending"⟩ ∧
    (save_order envOk dbStock10 (.ok reqForty)).store.inventory_available =
      [⟨1, -30, 5 / 2, 101⟩] ∧
    ¬ (∀ y ∈ (save_order envOk dbStock10 (.ok reqForty)).store.inventory_available,
        0 ≤ y.total_quantity) := by
  decide!

/-- C8, amended: if every inventory row has `total_quantity >= 0` and `inventory_id`
is the key of `inventory_available`, then every inventory row of the committed store
after the call has `total_quantity >= 0`, except when the call succeeds as a `Pending`
order (status `Pending` or empty) whose parsed quantity exceeds the `total_quantity` of
the row with the latest `last_updated`; in that case the committed store after the call
has a row with negative `total_quantity`. -/
theorem C8_stock_nonneg_unless_oversold (env : Env) (db : Store) (req : InsertCustomerOrder)
    (hkey : InventoryKey db)
    (hnn : ∀ x ∈ db.inventory_available, 0 ≤ x.total_quantity) :
    ((∀ msg id tp o q r, (save_order env db (.ok req)).response = .ok msg id tp o →
        (req.Status = "Pending" ∨ req.Status = "") →
        Atoi req.Num_gallons_order = (q, none) →
        IsLatest db.inventory_available r → q ≤ r.total_quantity) →
      ∀ y ∈ (save_order env db (.ok req)).store.inventory_available, 0 ≤ y.total_quantity) ∧
    (∀ msg id tp o q, (save_order env db (.ok req)).response = .ok msg id tp o →
        (req.Status = "Pending" ∨ req.Status = "") →
        Atoi req.Num_gallons_order = (q, none) →
        ∃ r, IsLatest db.inventory_available r ∧
          (r.total_quantity < q →
            ∃ y ∈ (save_order env db (.ok req)).store.inventory_available,
              y.total_quantity < 0)) := by
  constructor
  · intro hle
    rcases hr : (save_order env db (.ok req)).response with ⟨st, m, d⟩ | ⟨m, i, t, o⟩
    · rw [save_order_error_store hr]
      exact hnn
    · obtain ⟨-, q, r, hq, hl, -, -, ho, hstore⟩ := save_order_ok_inv hr
      rw [hstore]
      simp only
      split
      · rename_i hpend
        have hst : req.Status = "Pending" ∨ req.Status = "" := by
          rw [ho] at hpend
          simp only [defaulted] at hpend
          by_cases h0 : req.Status = ""
          · exact Or.inr h0
          · rw [if_neg h0] at hpend
            exact Or.inl hpend
        rw [updateInventoryQuery_eq_of_nodup hkey hl]
        intro y hy
        rcases List.mem_map.1 hy with ⟨x, hx, rfl⟩
        split
        · rename_i hxr
          subst hxr
          have := hle m i t o q x hr hst hq (latestRow_isLatest hl)
          simp only
          omega
        · exact hnn x hx
      · exact hnn
  · intro msg id tp o q hok hst hq
    obtain ⟨-, q2, r, hq2, hl, -, -, ho, hstore⟩ := save_order_ok_inv hok
    rw [hq] at hq2
    simp only [Prod.mk.injEq, and_true] at hq2
    subst hq2
    have hpend : o.Status = "Pending" := by
      rw [ho]
      rcases hst with h | h <;> simp [defaulted, h]
    refine ⟨r, latestRow_isLatest hl, fun hlt => ?_⟩
    refine ⟨⟨r.inventory_id, r.total_quantity - q, r.price, env.updateNow⟩, ?_, ?_⟩
    · rw [hstore]
      simp only [hpend, if_true]
      rw [updateInventoryQuery_eq_of_nodup hkey hl]
      refine List.mem_map.2 ⟨r, (latestRow_isLatest hl).1, ?_⟩
      simp
    · simp only
      omega

/-- C8, amended, on stock 1000 and on stock 10 with an order for 40 gallons: the first
stock stays non-negative, the second goes negative. -/
theorem C8_stock_nonneg_unless_oversold_witness :
    (save_order envOk dbStock1000 (.ok reqForty)).store.inventory_available.all
      (fun y => decide (0 ≤ y.total_quantity)) = true ∧
    ∃ r, IsLatest dbStock10.inventory_available r ∧
      (r.total_quantity < 40 →
        ∃ y ∈ (save_order envOk dbStock10 (.ok reqForty)).store.inventory_available,
          y.total_quantity < 0) := by
  constructor
  · rw [List.all_eq_true]
    intro y hy
    refine decide_eq_true ((C8_stock_nonneg_unless_oversold envOk dbStock1000 reqForty
      (by decide) (by decide)).1 ?_ y hy)
    intro msg id tp o q r _ _ hq hr
    have h40 : q = 40 := by
      have h : Atoi reqForty.Num_gallons_order = (40, none) := by decide
      rw [h] at hq
      simp only [Prod.mk.injEq, and_true] at hq
      exact hq.symm
    have hmem : r ∈ [(⟨1, 1000, 5 / 2, 50⟩ : InventoryRow)] := hr.1
    simp only [List.mem_singleton] at hmem
    subst h40 hmem
    decide
  · exact (C8_stock_nonneg_unless_oversold envOk dbStock10 reqForty (by decide) (by decide)).2
      "Order saved successfully" 1 100 ⟨"7", "40", "2026-11-02", "Pending"⟩ 40
      (by decide!) (Or.inr (by decide)) (by decide)

/-- C9 as stated fails: the quantity text `-5` is accepted and the inserted order row
stores `num_gallons_order = -5`, which is not positive. -/
theorem C9_counterexample :
    (save_order envOk dbStock1000 (.ok reqMinusFive)).response =
      .ok "Order saved successfully" 1 (-25 / 2) ⟨"7", "-5", "2026-11-02", "Pending"⟩ ∧
    (save_order envOk dbStock1000 (.ok reqMinusFive)).store.customer_order =
      [⟨1, "7", -5, "2026-11-02", 100, -25 / 2, "Pending"⟩] ∧
    ¬ (∀ row ∈ (save_order envOk dbStock1000 (.ok reqMinusFive)).store.customer_order,
        0 < row.num_gallons_order) := by
  decide!

/-- C9, amended: the requested quantity of an order is an integer.  If `save_order`
succeeds, the request's `num_gallons_order` is the decimal text of an integer, it
parses to the integer `q` it denotes, in the range of a 64-bit `int` (of any sign, zero
included), and the inserted order row stores `num_gallons_order = q`; and a
`num_gallons_order` that is not the decimal text of an integer is rejected with a
status-400 validation error. -/
theorem C9_quantity_is_parsed_integer (env : Env) (db : Store) (req : InsertCustomerOrder) :
    (∀ msg id tp o, (save_order env db (.ok req)).response = .ok msg id tp o →
      ∃ q row, Atoi req.Num_gallons_order = (q, none) ∧
        isIntegerText req.Num_gallons_order = true ∧
        q = textValue req.Num_gallons_order ∧
        -(2 : Int) ^ 63 ≤ q ∧ q < (2 : Int) ^ 63 ∧
        (save_order env db (.ok req)).store.customer_order = db.customer_order ++ [row] ∧
        row.num_gallons_order = q) ∧
    (isIntegerText req.Num_gallons_order = false →
      ∃ m d, (save_order env db (.ok req)).response = .error 400 m d) := by
  constructor
  · intro msg id tp o hok
    obtain ⟨-, q, r, hq, -, -, -, -, hstore⟩ := save_order_ok_inv hok
    obtain ⟨h1, h2, h3⟩ := Atoi_ok hq
    refine ⟨q, ⟨env.lastInsertId, req.CustomerID, q, o.Date, env.insertNow, tp, o.Status⟩,
      hq, h1, Atoi_value hq, h2, h3, ?_, rfl⟩
    rw [hstore]
  · intro hn
    by_cases hc : req.CustomerID = ""
    · exact ⟨"Customer ID is required", none, by simp [save_order, hc]⟩
    · rcases hA : Atoi req.Num_gallons_order with ⟨q, _ | err⟩
      · have := (Atoi_ok hA).1
        rw [hn] at this
        exact absurd this (by simp)
      · exact ⟨"Invalid number of gallons", some (.num err), by simp [save_order, hc, hA]⟩

/-- C9, amended, on the accepted text `-5` and on the rejected text `4.5`. -/
theorem C9_quantity_is_parsed_integer_witness :
    (∃ q row, Atoi reqMinusFive.Num_gallons_order = (q, none) ∧
        isIntegerText reqMinusFive.Num_gallons_order = true ∧
        q = textValue reqMinusFive.Num_gallons_order ∧
        -(2 : Int) ^ 63 ≤ q ∧ q < (2 : Int) ^ 63 ∧
        (save_order envOk dbStock1000 (.ok reqMinusFive)).store.customer_order =
          dbStock1000.customer_order ++ [row] ∧
        row.num_gallons_order = q) ∧
    (∃ m d, (save_order envOk dbStock1000 (.ok reqFourPointFive)).response =
      .error 400 m d) :=
  ⟨(C9_quantity_is_parsed_integer envOk dbStock1000 reqMinusFive).1
      "Order saved successfully" 1 (-25 / 2) ⟨"7", "-5", "2026-11-02", "Pending"⟩ (by decide!),
   (C9_quantity_is_parsed_integer envOk dbStock1000 reqFourPointFive).2 (by decide)⟩

/-- C10: when `save_order` succeeds, the inserted order row's status is `Pending` if
the request's status is empty and the request's status otherwise; its date is the
request's date if that is not empty, and otherwise a text that reads
`year-month-day` with the year, month and day of the clock, of the shape `YYYY-MM-DD`
(four, two and two digits) whenever the clock's year has at most four digits; the order
echoed in the response carries the same two values. -/
theorem C10_defaults (env : Env) (db : Store) (req : InsertCustomerOrder)
    (msg : String) (id : Int) (tp : ℚ) (o : InsertCustomerOrder)
    (hok : (save_order env db (.ok req)).response = .ok msg id tp o) :
    ∃ row, (save_order env db (.ok req)).store.customer_order = db.customer_order ++ [row] ∧
      row.status = (if req.Status = "" then "Pending" else req.Status) ∧
      (req.Date ≠ "" → row.date = req.Date) ∧
      (req.Date = "" →
        DenotesDate row.date env.today.Year env.today.Month env.today.Day ∧
        (env.today.Year < 10000 → env.today.Month < 100 → env.today.Day < 100 →
          isYMD row.date = true)) ∧
      o.Status = row.status ∧ o.Date = row.date := by
  obtain ⟨-, q, r, -, -, -, -, ho, hstore⟩ := save_order_ok_inv hok
  have hdate : o.Date = (if req.Date = "" then env.today.Format else req.Date) := by
    rw [ho]
    rfl
  refine ⟨⟨env.lastInsertId, req.CustomerID, q, o.Date, env.insertNow, tp, o.Status⟩,
    by rw [hstore], ?_, ?_, ?_, rfl, rfl⟩
  · rw [ho]
    rfl
  · intro hne
    simp only [hdate, if_neg hne]
  · intro he
    simp only [hdate, if_pos he]
    exact ⟨Time.Format_denotes env.today, Time.Format_isYMD env.today⟩

/-- C10 on the scenario of the specification: on 2 November 2026 an empty status and
an empty date become `Pending` and `2026-11-02`. -/
theorem C10_defaults_witness :
    (∃ row, (save_order envOk dbStock1000 (.ok reqForty)).store.customer_order =
        dbStock1000.customer_order ++ [row] ∧
      row.status = (if reqForty.Status = "" then "Pending" else reqForty.Status) ∧
      (reqForty.Date ≠ "" → row.date = reqForty.Date) ∧
      (reqForty.Date = "" →
        DenotesDate row.date envOk.today.Year envOk.today.Month envOk.today.Day ∧
        (envOk.today.Year < 10000 → envOk.today.Month < 100 → envOk.today.Day < 100 →
          isYMD row.date = true)) ∧
      (⟨"7", "40", "2026-11-02", "Pending"⟩ : InsertCustomerOrder).Status = row.status ∧
      (⟨"7", "40", "2026-11-02", "Pending"⟩ : InsertCustomerOrder).Date = row.date) ∧
    (save_order envOk dbStock1000 (.ok reqForty)).store.customer_order =
      [⟨1, "7", 40, "2026-11-02", 100, 100, "Pending"⟩] ∧
    (save_order envOk dbStock1000 (.ok reqConfirmed)).store.customer_order =
      [⟨1, "7", 40, "2026-10-31", 100, 100, "Confirmed"⟩] :=
  ⟨C10_defaults envOk dbStock1000 reqForty "Order saved successfully" 1 100
    ⟨"7", "40", "2026-11-02", "Pending"⟩ (by decide!), by decide!, by decide!⟩

end WaterAPI
